import Mathlib

/-!
Verification of the gossamer freeing-bump heap allocator
(`src/runtime/allocator.go`) and of the slot-timing `median` helper
(`package babe`), against the repository's natural-language specification.

The Go code is shallowly embedded: machine `uint32`/`uint64` arithmetic is
modelled on `Nat` with explicit reductions modulo `2^32` (`add32`, `sub32`)
respectively `2^64` exactly where the Go operations can wrap; the wasm
memory byte buffer is a `List Nat` of byte values; fallible heap accesses
return `Except`.  Go runtime panics (slice or array index out of range)
are modelled as the dedicated error values `AllocError.heapOutOfBounds`
and `AllocError.headsOutOfBounds`, distinct from the errors the Go code
itself constructs and returns.
-/

namespace Gossamer

/-- Modulus of Go's `uint32` arithmetic. -/
def U32 : Nat := 4294967296

/-- Modulus of Go's `uint64` / 64-bit `uint` arithmetic. -/
def U64 : Nat := 18446744073709551616

/-- `const ALIGNMENT uint32 = 8` -/
def ALIGNMENT : Nat := 8

/-- `const N = 22` — number of size classes / length of the `heads` array. -/
def N : Nat := 22

/-- `const MAX_POSSIBLE_ALLOCATION = 16777216` (2^24 bytes). -/
def MAX_POSSIBLE_ALLOCATION : Nat := 16777216

/-- Go `uint32` addition (wraps modulo `2^32`). -/
def add32 (a b : Nat) : Nat := (a + b) % U32

/-- Go `uint32` subtraction (wraps modulo `2^32`). -/
def sub32 (a b : Nat) : Nat := (a % U32 + (U32 - b % U32)) % U32

/-- One step `v |= v >> s` of the bit-smearing in `nextPowerOf2GT8`. -/
def orShift (v s : Nat) : Nat := v ||| (v >>> s)

/-- The five-step smearing cascade of `nextPowerOf2GT8`. -/
def smear (x : Nat) : Nat :=
  orShift (orShift (orShift (orShift (orShift x 1) 2) 4) 8) 16

/-- `nextPowerOf2GT8` from `allocator.go`: returns 8 for `v < 8`, otherwise
rounds `v` up to the next power of two by bit smearing.  All values stay
below `2^32` for inputs below `2^32`, so plain `Nat` operations coincide
with Go's `uint32` operations here. -/
def nextPowerOf2GT8 (v : Nat) : Nat :=
  if v < 8 then 8
  else
    let v1 := v - 1
    let v2 := orShift v1 1
    let v3 := orShift v2 2
    let v4 := orShift v3 4
    let v5 := orShift v4 8
    let v6 := orShift v5 16
    v6 + 1

/-- Helper for `trailingZeros32`: counts trailing zero bits of `v`,
consuming one unit of fuel per bit inspected. -/
def tzAux : Nat → Nat → Nat
  | 0, _ => 0
  | fuel + 1, v => if v % 2 = 1 then 0 else tzAux fuel (v / 2) + 1

/-- Go's `bits.TrailingZeros32`: 32 for zero input, otherwise the number of
trailing zero bits of the 32-bit value. -/
def trailingZeros32 (v : Nat) : Nat :=
  if v % U32 = 0 then 32 else tzAux 32 (v % U32)

/-- `get_item_size_from_index` from `allocator.go`:
`1 << 3 << index` on Go's 64-bit `uint`. -/
def get_item_size_from_index (index : Nat) : Nat :=
  ((1 <<< 3) <<< index) % U64

/-- `binary.LittleEndian.Uint32`: decode 4 bytes, least significant first. -/
def leUint32 (bytes : List Nat) : Nat :=
  bytes.getD 0 0 + bytes.getD 1 0 * 256 + bytes.getD 2 0 * 65536 +
    bytes.getD 3 0 * 16777216

/-- `binary.LittleEndian.PutUint32`: encode a 32-bit value as 4 bytes,
least significant first. -/
def lePutUint32 (v : Nat) : List Nat :=
  [v % 256, v / 256 % 256, v / 65536 % 256, v / 16777216 % 256]

/-- Write a run of byte values into a byte list starting at index `i`
(the effect of Go's `copy` into a 4-byte slice). -/
def writeBytes : List Nat → Nat → List Nat → List Nat
  | heap, _, [] => heap
  | heap, i, b :: bs => writeBytes (heap.set i b) (i + 1) bs

/-- The four bytes at absolute heap index `a` (the value read by
`get_heap_4bytes` when in bounds). -/
def heapBytes4 (heap : List Nat) (a : Nat) : List Nat :=
  [heap.getD a 0, heap.getD (a + 1) 0, heap.getD (a + 2) 0, heap.getD (a + 3) 0]

/-- Errors of the allocator.  The first three are the errors the Go code
itself constructs and returns; the last two model Go runtime panics
(out-of-range indexing), which the Go code does not guard against. -/
inductive AllocError where
  /-- `"Error: size to large"` -/
  | allocationTooLarge : AllocError
  /-- `"Error: allocator out of space"` -/
  | outOfMemory : AllocError
  /-- `"Invalid pointer for deallocation"` -/
  | invalidPointer : AllocError
  /-- models a Go runtime panic: heap slice index out of range -/
  | heapOutOfBounds : AllocError
  /-- models a Go runtime panic: `heads` array index out of range -/
  | headsOutOfBounds : AllocError
deriving DecidableEq

instance {ε α : Type} [DecidableEq ε] [DecidableEq α] : DecidableEq (Except ε α) :=
  fun x y =>
    match x, y with
    | .error a, .error b =>
      if h : a = b then .isTrue (h ▸ rfl)
      else .isFalse (fun c => h (by cases c; rfl))
    | .ok a, .ok b =>
      if h : a = b then .isTrue (h ▸ rfl)
      else .isFalse (fun c => h (by cases c; rfl))
    | .error _, .ok _ => .isFalse (fun c => by cases c)
    | .ok _, .error _ => .isFalse (fun c => by cases c)

/-- The allocator state (`FreeingBumpHeapAllocator` in `allocator.go`).
The wasm memory `heap *wasm.Memory` is embedded as its byte contents. -/
structure FreeingBumpHeapAllocator where
  bumper : Nat
  heads : List Nat
  heap : List Nat
  max_heap_size : Nat
  ptr_offset : Nat
  total_size : Nat
deriving DecidableEq

/-- `newAllocator` from `allocator.go`.  Note that the Go code computes
`heap_size` from the caller-supplied `ptr_offset` *before* aligning
`ptr_offset` up to a multiple of `ALIGNMENT`. -/
def newAllocator (mem : List Nat) (ptr_offset : Nat) : FreeingBumpHeapAllocator :=
  let current_size := mem.length
  let heap_size := sub32 current_size ptr_offset
  let padding := ptr_offset % ALIGNMENT
  let ptr_offset' := if padding ≠ 0 then add32 ptr_offset (ALIGNMENT - padding) else ptr_offset
  { bumper := 0
    heads := List.replicate N 0
    heap := mem
    max_heap_size := heap_size
    ptr_offset := ptr_offset'
    total_size := 0 }

/-- `set_heap`: write one byte at heap index `ptr_offset + ptr` (wrapping
`uint32` addition); a Go index-out-of-range panic becomes an error. -/
def set_heap (fbha : FreeingBumpHeapAllocator) (ptr value : Nat) :
    Except AllocError FreeingBumpHeapAllocator :=
  let idx := add32 fbha.ptr_offset ptr
  if idx < fbha.heap.length then .ok { fbha with heap := fbha.heap.set idx value }
  else .error .heapOutOfBounds

/-- `set_heap_4bytes`: write 4 bytes at heap index `ptr_offset + ptr`. -/
def set_heap_4bytes (fbha : FreeingBumpHeapAllocator) (ptr : Nat) (value : List Nat) :
    Except AllocError FreeingBumpHeapAllocator :=
  let idx := add32 fbha.ptr_offset ptr
  if idx + 4 ≤ fbha.heap.length then .ok { fbha with heap := writeBytes fbha.heap idx value }
  else .error .heapOutOfBounds

/-- `get_heap_4bytes`: read 4 bytes at heap index `ptr_offset + ptr`. -/
def get_heap_4bytes (fbha : FreeingBumpHeapAllocator) (ptr : Nat) :
    Except AllocError (List Nat) :=
  let idx := add32 fbha.ptr_offset ptr
  if idx + 4 ≤ fbha.heap.length then
    .ok [fbha.heap.getD idx 0, fbha.heap.getD (idx + 1) 0,
         fbha.heap.getD (idx + 2) 0, fbha.heap.getD (idx + 3) 0]
  else .error .heapOutOfBounds

/-- `get_heap_byte`: read one byte at heap index `ptr_offset + ptr`. -/
def get_heap_byte (fbha : FreeingBumpHeapAllocator) (ptr : Nat) :
    Except AllocError Nat :=
  let idx := add32 fbha.ptr_offset ptr
  if idx < fbha.heap.length then .ok (fbha.heap.getD idx 0)
  else .error .heapOutOfBounds

/-- `bump`: return the current bump cursor and advance it by `n`.
The Go code performs no bounds check whatsoever here. -/
def bump (fbha : FreeingBumpHeapAllocator) (n : Nat) :
    Nat × FreeingBumpHeapAllocator :=
  (fbha.bumper, { fbha with bumper := add32 fbha.bumper n })

/-- The header-writing loop of `allocate`:
`for i := 1; i <= 8; i++ { fbha.set_heap(ptr-i, 255) }`, writing the 8
bytes preceding `ptr` in the same order as the Go loop.  On a heap panic
the state reached so far is returned. -/
def write_header_loop (fbha : FreeingBumpHeapAllocator) (ptr : Nat) :
    List Nat → (Except AllocError Unit) × FreeingBumpHeapAllocator
  | [] => (.ok (), fbha)
  | i :: rest =>
    match set_heap fbha (sub32 ptr i) 255 with
    | .ok fbha' => write_header_loop fbha' ptr rest
    | .error e => (.error e, fbha)

/-- `allocate` from `allocator.go`.  Returns the result together with the
allocator state after the call (on a modelled panic, the partially
mutated state reached at the point of the panic).  The `list_index < N`
test models the bounds check of Go's `fbha.heads[list_index]` array
access; on this path `list_index` is provably below `N`, so the guard can
never fire. -/
def allocate (fbha : FreeingBumpHeapAllocator) (size : Nat) :
    (Except AllocError Nat) × FreeingBumpHeapAllocator :=
  if size > MAX_POSSIBLE_ALLOCATION then (.error .allocationTooLarge, fbha)
  else
    let item_size := nextPowerOf2GT8 size
    if (item_size + 8 + fbha.total_size) % U32 > fbha.max_heap_size then
      (.error .outOfMemory, fbha)
    else
      let list_index := trailingZeros32 item_size - 3
      if list_index < N then
        match
          (if fbha.heads.getD list_index 0 ≠ 0 then
            -- Something from the free list
            let item := fbha.heads.getD list_index 0
            match get_heap_4bytes fbha item with
            | .error e => .error e
            | .ok four_bytes =>
              .ok (add32 item 8,
                   { fbha with heads := fbha.heads.set list_index (leUint32 four_bytes) })
          else
            -- Nothing to be freed. Bump.
            let rb := bump fbha (item_size + 8)
            (.ok (add32 rb.1 8, rb.2) :
              Except AllocError (Nat × FreeingBumpHeapAllocator)))
        with
        | .error e => (.error e, fbha)
        | .ok (ptr, fbha1) =>
          -- write "header" for allocated memory to heap
          match write_header_loop fbha1 ptr [1, 2, 3, 4, 5, 6, 7, 8] with
          | (.error e, fbha2) => (.error e, fbha2)
          | (.ok _, fbha2) =>
            match set_heap fbha2 (sub32 ptr 8) list_index with
            | .error e => (.error e, fbha2)
            | .ok fbha3 =>
              let fbha4 := { fbha3 with
                total_size := (fbha3.total_size + item_size + 8) % U32 }
              (.ok (add32 fbha4.ptr_offset ptr), fbha4)
      else (.error .headsOutOfBounds, fbha)

/-- `deallocate` from `allocator.go`.  `ptr := pointer - fbha.ptr_offset`
is wrapping `uint32` subtraction; `list_index` is the raw header byte and
is used to index the `heads` array, whose bounds check (`list_index < N`)
models Go's array-index panic. -/
def deallocate (fbha : FreeingBumpHeapAllocator) (pointer : Nat) :
    (Except AllocError Unit) × FreeingBumpHeapAllocator :=
  let ptr := sub32 pointer fbha.ptr_offset
  if ptr < 8 then (.error .invalidPointer, fbha)
  else
    match get_heap_byte fbha (ptr - 8) with
    | .error e => (.error e, fbha)
    | .ok list_index =>
      if list_index < N then
        -- update heads array, and heap "header"
        let tail := fbha.heads.getD list_index 0
        let fbha1 := { fbha with heads := fbha.heads.set list_index (ptr - 8) }
        match set_heap_4bytes fbha1 (ptr - 8) (lePutUint32 tail) with
        | .error e => (.error e, fbha1)
        | .ok fbha2 =>
          -- update heap total size
          let item_size := get_item_size_from_index list_index
          (.ok (), { fbha2 with total_size := sub32 fbha2.total_size (item_size + 8) })
      else (.error .headsOutOfBounds, fbha)

/-- Errors of the `median` helper in the slot-timing module. -/
inductive MedianError where
  /-- `"Arrival times list is empty!"` -/
  | emptyList : MedianError
  /-- models a Go runtime panic: slice index out of range -/
  | indexOutOfRange : MedianError
deriving DecidableEq

/-- `median` from the slot-timing module (`package babe`).  Go's
`sort.Slice(l, less)` with `less i j := l[i] < l[j]` sorts the `uint64`
slice ascending; since `≤` on values is a total order, the sorted
permutation is unique and is embedded here as `List.insertionSort`.
For even length `m`, the Go code averages `l[(m/2)-1]` and `l[(m/2)+1]`
(note the `+1`), adding the two `uint64` values with wraparound; for
`m = 2` the index `(m/2)+1 = 2` is out of range and Go panics, which is
modelled by the bounds test. `(m/2)-1` is always in range for even
`m ≠ 0`. -/
def median (l : List Nat) : Except MedianError Nat :=
  let s := l.insertionSort (· ≤ ·)
  let m := l.length
  if m = 0 then .error .emptyList
  else if m % 2 = 0 then
    if m / 2 + 1 < s.length then
      .ok ((s.getD (m / 2 - 1) 0 + s.getD (m / 2 + 1) 0) % U64 / 2)
    else .error .indexOutOfRange
  else .ok (s.getD (m / 2) 0)

/-! ### Concrete allocator states used by counterexamples and witnesses

These replay the spec's own test scenario (1024 usable bytes, base
offset 0) and a few small heaps. -/

/-- The spec's scenario: heap of 1024 bytes, base offset 0. -/
def st0 : FreeingBumpHeapAllocator := newAllocator (List.replicate 1024 0) 0

/-- After `allocate(4)` (returns pointer 8). -/
def st1 : FreeingBumpHeapAllocator := (allocate st0 4).2

/-- After a second `allocate(4)` (returns pointer 24). -/
def st2 : FreeingBumpHeapAllocator := (allocate st1 4).2

/-- After `deallocate(8)` (pushes the block at offset 0). -/
def st3 : FreeingBumpHeapAllocator := (deallocate st2 8).2

/-- After `deallocate(24)` instead (pushes the block at offset 16). -/
def st3b : FreeingBumpHeapAllocator := (deallocate st2 24).2

/-- A 32-byte heap at base offset 0. -/
def u0 : FreeingBumpHeapAllocator := newAllocator (List.replicate 32 0) 0

/-- After `allocate(4)` on the 32-byte heap. -/
def u1 : FreeingBumpHeapAllocator := (allocate u0 4).2

/-- After `deallocate(8)`: the offset-0 block is lost, `total_size = 0`,
`bumper = 16`. -/
def u2 : FreeingBumpHeapAllocator := (deallocate u1 8).2

/-- A 32-byte heap with base offset 16 (pointers below 16 are below the
allocator's usable region). -/
def v0 : FreeingBumpHeapAllocator := newAllocator (List.replicate 32 0) 16

/-- A 32-byte heap whose byte at usable offset 0 is 22 = `N`: the header
byte of the block with payload pointer 8 is an out-of-range size class. -/
def w0 : FreeingBumpHeapAllocator := newAllocator (22 :: List.replicate 31 0) 0

/-! ### Ghost state for the allocator invariant

A `LiveBlock` records one currently live allocation: the relative heap
offset of its 8-byte header (`start`) and the requested size.  A free
chain for class `i` is the list of block starts reachable from
`free_list_heads[i]` through the intrusive links.  `Inv` ties the
concrete allocator state to this ghost state. -/

/-- One live allocation: `start` is the offset of the block header within
the usable region (the payload pointer is `ptr_offset + start + 8`),
`size` the requested size. -/
structure LiveBlock where
  start : Nat
  size : Nat
deriving DecidableEq

/-- The class index `allocate` computes for a request of size `s`. -/
def classIdx (s : Nat) : Nat := trailingZeros32 (nextPowerOf2GT8 s) - 3

/-- The block (payload) size of class `i`: `8 * 2^i`. -/
def blockSize (i : Nat) : Nat := 8 * 2 ^ i

/-- The heap byte at usable-region offset `a`. -/
def heapByte (st : FreeingBumpHeapAllocator) (a : Nat) : Nat :=
  st.heap.getD (st.ptr_offset + a) 0

/-- Head of a free chain; 0 encodes the empty chain, as in the code. -/
def headOf : List Nat → Nat
  | [] => 0
  | n :: _ => n

/-- Blocks `[a, a + blockSize i + 8)` and `[b, b + blockSize j + 8)`
are disjoint. -/
def extDisj (a i b j : Nat) : Prop :=
  a + blockSize i + 8 ≤ b ∨ b + blockSize j + 8 ≤ a

/-- The free block at offset `n` stores `next` as its 4-byte
little-endian intrusive link. -/
def chainLink (st : FreeingBumpHeapAllocator) (n next : Nat) : Prop :=
  heapBytes4 st.heap (st.ptr_offset + n) = lePutUint32 next ∧ next < U32

/-- A block of class `i` at offset `a` is well-placed: valid class, fully
carved below the bump cursor, header bytes inside the heap buffer. -/
structure BlockOK (st : FreeingBumpHeapAllocator) (a i : Nat) : Prop where
  idx_lt : i < N
  below_bumper : a + blockSize i + 8 ≤ st.bumper
  header_in : st.ptr_offset + a + 8 ≤ st.heap.length

/-- Well-formed free chain of class `i`: nonzero starts, well-placed
blocks, correctly encoded links. -/
def ChainOK (st : FreeingBumpHeapAllocator) (i : Nat) : List Nat → Prop
  | [] => True
  | n :: rest => n ≠ 0 ∧ BlockOK st n i ∧ chainLink st n (headOf rest) ∧ ChainOK st i rest

/-- The allocator invariant, relating a state to the ghost live-block
list and ghost free chains. -/
structure Inv (st : FreeingBumpHeapAllocator) (live : List LiveBlock)
    (free : Nat → List Nat) : Prop where
  static_len : st.ptr_offset + st.heap.length + 2 ^ 26 ≤ U32
  static_max : st.max_heap_size + 2 ^ 26 ≤ U32
  heads_len : st.heads.length = N
  bump_bound : st.ptr_offset + st.bumper ≤ st.heap.length + 2 ^ 25
  total_eq : st.total_size =
    (live.map (fun b => blockSize (classIdx b.size) + 8)).sum
  total_max : st.total_size ≤ st.max_heap_size
  size_max : ∀ b ∈ live, b.size ≤ MAX_POSSIBLE_ALLOCATION
  live_ok : ∀ b ∈ live, BlockOK st b.start (classIdx b.size)
  live_hdr : ∀ b ∈ live, heapByte st b.start = classIdx b.size
  live_disj : live.Pairwise
    (fun a b => extDisj a.start (classIdx a.size) b.start (classIdx b.size))
  live_free_disj : ∀ b ∈ live, ∀ i, i < N → ∀ n ∈ free i,
    extDisj b.start (classIdx b.size) n i
  chain_ok : ∀ i, i < N → ChainOK st i (free i)
  chain_disj : ∀ i, i < N → (free i).Pairwise (fun a b => extDisj a i b i)
  cross_disj : ∀ i j, i < N → j < N → i ≠ j → ∀ a ∈ free i, ∀ b ∈ free j,
    extDisj a i b j
  heads_match : ∀ i, i < N → st.heads.getD i 0 = headOf (free i)

/-- States reachable from a freshly constructed allocator by successful
`allocate`/`deallocate` calls, where every `deallocate` targets the
pointer of a currently live allocation (the well-formed call sequences
the spec's bookkeeping properties quantify over).  The two side
conditions on the initial configuration say the requested base offset
lies inside the buffer and the buffer is not within 2^27 bytes of the
4 GiB `uint32` wrap. -/
inductive Reached : FreeingBumpHeapAllocator → List LiveBlock → Prop where
  | init (mem : List Nat) (po : Nat)
      (hpo : po ≤ mem.length)
      (hlen : mem.length + po + 2 ^ 27 ≤ U32) :
      Reached (newAllocator mem po) []
  | step_alloc {st : FreeingBumpHeapAllocator} {live : List LiveBlock} {s p : Nat}
      (hr : Reached st live)
      (h : (allocate st s).1 = .ok p) :
      Reached (allocate st s).2
        ({ start := sub32 p st.ptr_offset - 8, size := s } :: live)
  | step_dealloc {st : FreeingBumpHeapAllocator} {live : List LiveBlock} {b : LiveBlock}
      (hr : Reached st live)
      (hb : b ∈ live)
      (h : (deallocate st (add32 st.ptr_offset (b.start + 8))).1 = .ok ()) :
      Reached (deallocate st (add32 st.ptr_offset (b.start + 8))).2 (live.erase b)

/-! ### Arithmetic facts about the wrapping helpers -/

theorem U32_pos : 0 < U32 := by simp [U32]

theorem add32_eq_of_lt {a b : Nat} (h : a + b < U32) : add32 a b = a + b := by
  simp [add32, Nat.mod_eq_of_lt h]

theorem sub32_eq_of_le {a b : Nat} (hb : b ≤ a) (ha : a < U32) : sub32 a b = a - b := by
  simp only [sub32, U32] at *
  omega

theorem sub32_add32_cancel {po x : Nat} (hx : x < U32) : sub32 (add32 po x) po = x := by
  simp only [sub32, add32, U32] at *
  omega

theorem add32_sub32_cancel {p po : Nat} (hp : p < U32) : add32 po (sub32 p po) = p := by
  simp only [sub32, add32, U32] at *
  omega

theorem leUint32_lePutUint32 {v : Nat} (hv : v < U32) : leUint32 (lePutUint32 v) = v := by
  simp only [leUint32, lePutUint32, List.getD_cons_zero, List.getD_cons_succ, U32] at *
  omega

theorem get_item_size_eq {i : Nat} (hi : i < 22) : get_item_size_from_index i = 8 * 2 ^ i := by
  have h2 : 2 ^ i ≤ 2097152 := by
    calc 2 ^ i ≤ 2 ^ 21 := Nat.pow_le_pow_right (by omega) (by omega)
    _ = 2097152 := by norm_num
  have h3 : (1 <<< 3) <<< i = 8 * 2 ^ i := by
    rw [Nat.shiftLeft_eq, Nat.shiftLeft_eq]
  rw [get_item_size_from_index, h3, Nat.mod_eq_of_lt (by simp only [U64]; omega)]

/-! ### List helper lemmas -/

theorem getD_set_eq_ite (l : List Nat) (i j v : Nat) :
    (l.set i v).getD j 0 = if i = j ∧ j < l.length then v else l.getD j 0 := by
  rw [List.getD_eq_getElem?_getD, List.getD_eq_getElem?_getD, List.getElem?_set]
  by_cases hij : i = j
  · subst hij
    by_cases hi : i < l.length
    · simp [hi]
    · simp [hi, List.getElem?_eq_none (Nat.le_of_not_lt hi)]
  · simp [hij]

theorem length_writeBytes (bs : List Nat) : ∀ (l : List Nat) (i : Nat),
    (writeBytes l i bs).length = l.length := by
  induction bs with
  | nil => intro l i; rfl
  | cons b bs ih =>
    intro l i
    simp [writeBytes, ih, List.length_set]

theorem getD_writeBytes (bs : List Nat) : ∀ (l : List Nat) (i q : Nat),
    (writeBytes l i bs).getD q 0 =
      if i ≤ q ∧ q < i + bs.length ∧ q < l.length then bs.getD (q - i) 0
      else l.getD q 0 := by
  induction bs with
  | nil =>
    intro l i q
    show l.getD q 0 = _
    simp only [List.length_nil]
    rw [if_neg (by omega)]
  | cons b bs ih =>
    intro l i q
    show (writeBytes (l.set i b) (i + 1) bs).getD q 0 = _
    rw [ih, getD_set_eq_ite, List.length_set]
    simp only [List.length_cons]
    by_cases h1 : i + 1 ≤ q ∧ q < i + 1 + bs.length ∧ q < l.length
    · rw [if_pos h1, if_pos (by omega)]
      have hq : q - i = (q - (i + 1)) + 1 := by omega
      rw [hq, List.getD_cons_succ]
    · rw [if_neg h1]
      by_cases h0 : i = q ∧ q < l.length
      · rw [if_pos h0, if_pos (by omega)]
        have hq : q - i = 0 := by omega
        rw [hq, List.getD_cons_zero]
      · rw [if_neg h0, if_neg (by omega)]

/-! ### Heap accessor specifications -/

theorem set_heap_ok (fbha : FreeingBumpHeapAllocator) (ptr v : Nat)
    (h : add32 fbha.ptr_offset ptr < fbha.heap.length) :
    set_heap fbha ptr v =
      .ok { fbha with heap := fbha.heap.set (add32 fbha.ptr_offset ptr) v } := by
  simp [set_heap, h]

theorem set_heap_err (fbha : FreeingBumpHeapAllocator) (ptr v : Nat)
    (h : ¬ add32 fbha.ptr_offset ptr < fbha.heap.length) :
    set_heap fbha ptr v = .error .heapOutOfBounds := by
  simp [set_heap, h]

theorem get_heap_byte_ok (fbha : FreeingBumpHeapAllocator) (ptr : Nat)
    (h : add32 fbha.ptr_offset ptr < fbha.heap.length) :
    get_heap_byte fbha ptr = .ok (fbha.heap.getD (add32 fbha.ptr_offset ptr) 0) := by
  simp [get_heap_byte, h]

theorem get_heap_4bytes_ok (fbha : FreeingBumpHeapAllocator) (ptr : Nat)
    (h : add32 fbha.ptr_offset ptr + 4 ≤ fbha.heap.length) :
    get_heap_4bytes fbha ptr = .ok (heapBytes4 fbha.heap (add32 fbha.ptr_offset ptr)) := by
  simp [get_heap_4bytes, heapBytes4, h]

theorem set_heap_4bytes_ok (fbha : FreeingBumpHeapAllocator) (ptr : Nat) (value : List Nat)
    (h : add32 fbha.ptr_offset ptr + 4 ≤ fbha.heap.length) :
    set_heap_4bytes fbha ptr value =
      .ok { fbha with heap := writeBytes fbha.heap (add32 fbha.ptr_offset ptr) value } := by
  simp [set_heap_4bytes, h]

/-- The header loop only ever succeeds or reports a (modelled) heap panic. -/
theorem write_header_loop_error (is : List Nat) :
    ∀ (fbha : FreeingBumpHeapAllocator) (ptr : Nat),
      (write_header_loop fbha ptr is).1 = .ok () ∨
      (write_header_loop fbha ptr is).1 = .error .heapOutOfBounds := by
  induction is with
  | nil => intro fbha ptr; left; rfl
  | cons i rest ih =>
    intro fbha ptr
    by_cases h : add32 fbha.ptr_offset (sub32 ptr i) < fbha.heap.length
    · rw [write_header_loop, set_heap_ok _ _ _ h]
      exact ih _ _
    · rw [write_header_loop, set_heap_err _ _ _ h]
      right; rfl

/-- One successful step of the header-writing loop. -/
theorem write_header_loop_cons_ok (fbha fbha' : FreeingBumpHeapAllocator)
    (ptr i : Nat) (rest : List Nat)
    (h : set_heap fbha (sub32 ptr i) 255 = .ok fbha') :
    write_header_loop fbha ptr (i :: rest) = write_header_loop fbha' ptr rest := by
  rw [write_header_loop, h]

/-- Full specification of the successful header-writing loop, for index
lists whose entries lie in `[1, 8]`. -/
theorem write_header_loop_ok_general (is : List Nat) :
    ∀ (fbha : FreeingBumpHeapAllocator) (ptr : Nat),
      (∀ i ∈ is, 1 ≤ i ∧ i ≤ 8) → 8 ≤ ptr →
      fbha.ptr_offset + ptr < U32 → fbha.ptr_offset + ptr ≤ fbha.heap.length →
      ∃ h' : List Nat,
        write_header_loop fbha ptr is = (.ok (), { fbha with heap := h' }) ∧
        h'.length = fbha.heap.length ∧
        ∀ q, h'.getD q 0 =
          if ∃ i ∈ is, q = fbha.ptr_offset + ptr - i then 255
          else fbha.heap.getD q 0 := by
  induction is with
  | nil =>
    intro fbha ptr _ _ _ _
    refine ⟨fbha.heap, ?_, rfl, ?_⟩
    · rfl
    · intro q; simp
  | cons i rest ih =>
    intro fbha ptr his h8 hwrap hlen
    have hi : 1 ≤ i ∧ i ≤ 8 := his i (List.mem_cons_self i rest)
    have hsub : sub32 ptr i = ptr - i :=
      sub32_eq_of_le (by omega) (by omega)
    have hadd : add32 fbha.ptr_offset (sub32 ptr i) = fbha.ptr_offset + ptr - i := by
      rw [hsub, add32_eq_of_lt (by omega)]
      omega
    have hin : add32 fbha.ptr_offset (sub32 ptr i) < fbha.heap.length := by
      rw [hadd]; omega
    obtain ⟨h', hrun, hlen', hget⟩ :=
      ih { fbha with heap := fbha.heap.set (add32 fbha.ptr_offset (sub32 ptr i)) 255 } ptr
        (fun j hj => his j (List.mem_cons_of_mem _ hj)) h8
        (by simpa using hwrap)
        (by simpa [List.length_set] using hlen)
    refine ⟨h', ?_, ?_, ?_⟩
    · rw [write_header_loop_cons_ok fbha _ ptr i rest (set_heap_ok _ _ _ hin)]
      exact hrun
    · rw [hlen']
      simp [List.length_set]
    · intro q
      rw [hget q]
      simp only [hadd]
      by_cases hq : ∃ j ∈ rest, q = fbha.ptr_offset + ptr - j
      · rw [if_pos hq, if_pos ?_]
        obtain ⟨j, hj, hqj⟩ := hq
        exact ⟨j, List.mem_cons_of_mem _ hj, hqj⟩
      · rw [if_neg hq]
        show (fbha.heap.set (fbha.ptr_offset + ptr - i) 255).getD q 0 = _
        rw [getD_set_eq_ite]
        by_cases hqi : q = fbha.ptr_offset + ptr - i
        · rw [if_pos (by constructor <;> omega), if_pos ?_]
          exact ⟨i, List.mem_cons_self i rest, hqi⟩
        · rw [if_neg (by intro hc; exact hqi hc.1.symm), if_neg ?_]
          intro hc
          obtain ⟨j, hj, hqj⟩ := hc
          rcases List.mem_cons.mp hj with hji | hjr
          · exact hqi (hji ▸ hqj)
          · exact hq ⟨j, hjr, hqj⟩

/-- The successful header-writing loop on the concrete Go index list
`[1, ..., 8]`: all 8 bytes preceding `ptr` are set to 255. -/
theorem write_header_loop_ok (fbha : FreeingBumpHeapAllocator) (ptr : Nat)
    (h8 : 8 ≤ ptr) (hwrap : fbha.ptr_offset + ptr < U32)
    (hlen : fbha.ptr_offset + ptr ≤ fbha.heap.length) :
    ∃ h' : List Nat,
      write_header_loop fbha ptr [1, 2, 3, 4, 5, 6, 7, 8] = (.ok (), { fbha with heap := h' }) ∧
      h'.length = fbha.heap.length ∧
      ∀ q, h'.getD q 0 =
        if fbha.ptr_offset + ptr - 8 ≤ q ∧ q < fbha.ptr_offset + ptr then 255
        else fbha.heap.getD q 0 := by
  obtain ⟨h', hrun, hlen', hget⟩ :=
    write_header_loop_ok_general [1, 2, 3, 4, 5, 6, 7, 8] fbha ptr
      (by intro i hi; fin_cases hi <;> omega) h8 hwrap hlen
  refine ⟨h', hrun, hlen', ?_⟩
  intro q
  rw [hget q]
  by_cases hq : fbha.ptr_offset + ptr - 8 ≤ q ∧ q < fbha.ptr_offset + ptr
  · rw [if_pos hq, if_pos ?_]
    refine ⟨fbha.ptr_offset + ptr - q, ?_, by omega⟩
    have : fbha.ptr_offset + ptr - q = 1 ∨ fbha.ptr_offset + ptr - q = 2 ∨
        fbha.ptr_offset + ptr - q = 3 ∨ fbha.ptr_offset + ptr - q = 4 ∨
        fbha.ptr_offset + ptr - q = 5 ∨ fbha.ptr_offset + ptr - q = 6 ∨
        fbha.ptr_offset + ptr - q = 7 ∨ fbha.ptr_offset + ptr - q = 8 := by omega
    simp only [List.mem_cons, List.not_mem_nil]
    tauto
  · rw [if_neg hq, if_neg ?_]
    intro ⟨i, hi, hqi⟩
    fin_cases hi <;> omega

/-! ### The bit-smearing in `nextPowerOf2GT8` computes the next power of two -/

theorem orShift_testBit (x s j : Nat) :
    (orShift x s).testBit j = (x.testBit j || x.testBit (s + j)) := by
  simp [orShift, Nat.testBit_or, Nat.testBit_shiftRight]

/-- Each `v |= v >> n` step doubles the window of source bits that feed a
result bit. -/
theorem orShift_window {x y : Nat} {n : Nat}
    (hy : ∀ j, y.testBit j = true ↔ ∃ d, d < n ∧ x.testBit (j + d) = true) :
    ∀ j, (orShift y n).testBit j = true ↔ ∃ d, d < 2 * n ∧ x.testBit (j + d) = true := by
  intro j
  rw [orShift_testBit, Bool.or_eq_true, hy j, hy (n + j)]
  constructor
  · rintro (⟨d, hd, hbit⟩ | ⟨d, hd, hbit⟩)
    · exact ⟨d, by omega, hbit⟩
    · refine ⟨n + d, by omega, ?_⟩
      have : j + (n + d) = n + j + d := by omega
      rw [this]
      exact hbit
  · rintro ⟨d, hd, hbit⟩
    by_cases hdn : d < n
    · exact Or.inl ⟨d, hdn, hbit⟩
    · refine Or.inr ⟨d - n, by omega, ?_⟩
      have : n + j + (d - n) = j + d := by omega
      rw [this]
      exact hbit

theorem window_one (x : Nat) :
    ∀ j, x.testBit j = true ↔ ∃ d, d < 1 ∧ x.testBit (j + d) = true := by
  intro j
  constructor
  · intro h
    exact ⟨0, by omega, by simpa using h⟩
  · rintro ⟨d, hd, hbit⟩
    have : d = 0 := by omega
    subst this
    simpa using hbit

theorem smear_window (x : Nat) :
    ∀ j, (smear x).testBit j = true ↔ ∃ d, d < 32 ∧ x.testBit (j + d) = true := by
  have h1 := orShift_window (window_one x)
  have h2 := orShift_window h1
  have h4 := orShift_window h2
  have h8 := orShift_window h4
  have h16 := orShift_window h8
  exact h16

theorem testBit_le_log2 {x m : Nat} (hx : x ≠ 0) (h : x.testBit m = true) : m ≤ x.log2 := by
  rw [Nat.le_log2 hx]
  by_contra hc
  rw [Nat.testBit_lt_two_pow (by omega)] at h
  exact Bool.false_ne_true h

theorem testBit_log2 {x : Nat} (hx : x ≠ 0) : x.testBit x.log2 = true := by
  have h1 : 2 ^ x.log2 ≤ x := Nat.log2_self_le hx
  have h2 : x < 2 ^ (x.log2 + 1) := Nat.lt_log2_self
  rw [Nat.testBit_to_div_mod]
  have hpos : 0 < 2 ^ x.log2 := Nat.pos_pow_of_pos _ (by omega)
  have hdiv : x / 2 ^ x.log2 = 1 := by
    have hlow : 1 ≤ x / 2 ^ x.log2 := (Nat.one_le_div_iff hpos).mpr h1
    have hhigh : x / 2 ^ x.log2 < 2 := by
      rw [Nat.div_lt_iff_lt_mul hpos]
      have hp : 2 ^ (x.log2 + 1) = 2 * 2 ^ x.log2 := by rw [Nat.pow_succ]; ring
      omega
    omega
  rw [hdiv]
  decide

theorem smear_eq {x : Nat} (hx : 0 < x) (h32 : x < 2 ^ 32) :
    smear x = 2 ^ (x.log2 + 1) - 1 := by
  have hlog : x.log2 < 32 := by
    rw [Nat.log2_lt (by omega)]
    exact h32
  apply Nat.eq_of_testBit_eq
  intro j
  rw [Nat.testBit_two_pow_sub_one]
  by_cases hj : j < x.log2 + 1
  · rw [decide_eq_true hj]
    rw [smear_window]
    refine ⟨x.log2 - j, by omega, ?_⟩
    have : j + (x.log2 - j) = x.log2 := by omega
    rw [this]
    exact testBit_log2 (by omega)
  · rw [decide_eq_false hj]
    by_contra hc
    rw [Bool.not_eq_false] at hc
    rw [smear_window] at hc
    obtain ⟨d, _, hbit⟩ := hc
    have := testBit_le_log2 (by omega) hbit
    omega

/-- For `8 ≤ v < 2^32`, `nextPowerOf2GT8 v = 2 ^ ((v-1).log2 + 1)`. -/
theorem nextPowerOf2GT8_eq_pow {v : Nat} (h8 : 8 ≤ v) (h32 : v < 2 ^ 32) :
    nextPowerOf2GT8 v = 2 ^ ((v - 1).log2 + 1) := by
  have hv : ¬ v < 8 := by omega
  show (if v < 8 then 8 else _) = _
  rw [if_neg hv]
  show smear (v - 1) + 1 = _
  rw [smear_eq (by omega) (by omega)]
  have : 0 < 2 ^ ((v - 1).log2 + 1) := Nat.pos_pow_of_pos _ (by omega)
  omega

theorem nextPowerOf2GT8_small {v : Nat} (h : v < 8) : nextPowerOf2GT8 v = 8 := by
  show (if v < 8 then 8 else _) = 8
  rw [if_pos h]

theorem nextPowerOf2GT8_ge {v : Nat} (h8 : 8 ≤ v) (h32 : v < 2 ^ 32) :
    v ≤ nextPowerOf2GT8 v := by
  rw [nextPowerOf2GT8_eq_pow h8 h32]
  have := @Nat.lt_log2_self (v - 1)
  omega

theorem nextPowerOf2GT8_lt_two_mul {v : Nat} (h8 : 8 ≤ v) (h32 : v < 2 ^ 32) :
    nextPowerOf2GT8 v < 2 * v := by
  rw [nextPowerOf2GT8_eq_pow h8 h32]
  have h1 : 2 ^ (v - 1).log2 ≤ v - 1 := Nat.log2_self_le (by omega)
  have h2 : 2 ^ ((v - 1).log2 + 1) = 2 * 2 ^ (v - 1).log2 := by
    rw [Nat.pow_succ]; ring
  omega

/-- The size class index of `nextPowerOf2GT8 v` is in `[3, 24]` as an
exponent, for request sizes up to the 16 MiB maximum. -/
theorem nextPowerOf2GT8_exponent {v : Nat} (hv : v ≤ MAX_POSSIBLE_ALLOCATION) :
    ∃ k, 3 ≤ k ∧ k ≤ 24 ∧ nextPowerOf2GT8 v = 2 ^ k := by
  by_cases h8 : v < 8
  · exact ⟨3, by omega, by omega, by rw [nextPowerOf2GT8_small h8]; norm_num⟩
  · have hmax : v ≤ 16777216 := hv
    refine ⟨(v - 1).log2 + 1, ?_, ?_, ?_⟩
    · have h2v : 2 ^ 2 ≤ v - 1 := by omega
      have hne : v - 1 ≠ 0 := by omega
      have := (Nat.le_log2 hne).mpr h2v
      omega
    · have : (v - 1).log2 < 24 := by
        rw [Nat.log2_lt (by omega)]
        calc v - 1 < 16777216 := by omega
        _ = 2 ^ 24 := by norm_num
      omega
    · exact nextPowerOf2GT8_eq_pow (by omega) (by calc v ≤ 16777216 := hmax
        _ < 2 ^ 32 := by norm_num)

theorem tzAux_pow : ∀ (k fuel : Nat), k < fuel → tzAux fuel (2 ^ k) = k := by
  intro k
  induction k with
  | zero =>
    intro fuel hf
    match fuel, hf with
    | fuel + 1, _ => simp [tzAux]
  | succ k ih =>
    intro fuel hf
    match fuel, hf with
    | fuel + 1, hf =>
      have hmod : 2 ^ (k + 1) % 2 = 0 := by
        rw [Nat.pow_succ, Nat.mul_mod_left]
      have hdiv : 2 ^ (k + 1) / 2 = 2 ^ k := by
        rw [Nat.pow_succ]
        omega
      show (if 2 ^ (k + 1) % 2 = 1 then 0 else tzAux fuel (2 ^ (k + 1) / 2) + 1) = k + 1
      rw [if_neg (by omega), hdiv, ih fuel (by omega)]

theorem trailingZeros32_pow {k : Nat} (hk : k < 32) : trailingZeros32 (2 ^ k) = k := by
  have hlt : 2 ^ k < U32 := by
    have : 2 ^ k < 2 ^ 32 := Nat.pow_lt_pow_right (by omega) hk
    simpa [U32] using this
  have hmod : 2 ^ k % U32 = 2 ^ k := Nat.mod_eq_of_lt hlt
  rw [trailingZeros32, hmod, if_neg (by positivity), tzAux_pow k 32 hk]

/-- The class index computed by `allocate` from a rounded block size:
`8 * 2 ^ (trailingZeros32 (nextPowerOf2GT8 v) - 3) = nextPowerOf2GT8 v`
for all request sizes up to the maximum. -/
theorem item_size_recover {v : Nat} (hv : v ≤ MAX_POSSIBLE_ALLOCATION) :
    8 * 2 ^ (trailingZeros32 (nextPowerOf2GT8 v) - 3) = nextPowerOf2GT8 v := by
  obtain ⟨k, hk3, hk24, hpow⟩ := nextPowerOf2GT8_exponent hv
  rw [hpow, trailingZeros32_pow (by omega)]
  have : 2 ^ k = 2 ^ 3 * 2 ^ (k - 3) := by
    rw [← Nat.pow_add]
    congr 1
    omega
  rw [this]
  norm_num

theorem list_index_lt {v : Nat} (hv : v ≤ MAX_POSSIBLE_ALLOCATION) :
    trailingZeros32 (nextPowerOf2GT8 v) - 3 < N := by
  obtain ⟨k, hk3, hk24, hpow⟩ := nextPowerOf2GT8_exponent hv
  rw [hpow, trailingZeros32_pow (by omega)]
  simp only [N]
  omega

theorem nextPowerOf2GT8_le_max {v : Nat} (hv : v ≤ MAX_POSSIBLE_ALLOCATION) :
    nextPowerOf2GT8 v ≤ 16777216 := by
  obtain ⟨k, hk3, hk24, hpow⟩ := nextPowerOf2GT8_exponent hv
  rw [hpow]
  calc 2 ^ k ≤ 2 ^ 24 := Nat.pow_le_pow_right (by omega) hk24
  _ = 16777216 := by norm_num

theorem nextPowerOf2GT8_ge_8 {v : Nat} (hv : v ≤ MAX_POSSIBLE_ALLOCATION) :
    8 ≤ nextPowerOf2GT8 v := by
  obtain ⟨k, hk3, _, hpow⟩ := nextPowerOf2GT8_exponent hv
  rw [hpow]
  calc (8 : Nat) = 2 ^ 3 := by norm_num
  _ ≤ 2 ^ k := Nat.pow_le_pow_right (by omega) hk3

/-! ### Error classification for the heap accessors -/

theorem set_heap_error {fbha : FreeingBumpHeapAllocator} {ptr v : Nat} {e : AllocError}
    (h : set_heap fbha ptr v = .error e) : e = .heapOutOfBounds := by
  by_cases hb : add32 fbha.ptr_offset ptr < fbha.heap.length
  · rw [set_heap_ok _ _ _ hb] at h
    cases h
  · rw [set_heap_err _ _ _ hb] at h
    cases h
    rfl

theorem get_heap_4bytes_error {fbha : FreeingBumpHeapAllocator} {ptr : Nat} {e : AllocError}
    (h : get_heap_4bytes fbha ptr = .error e) : e = .heapOutOfBounds := by
  by_cases hb : add32 fbha.ptr_offset ptr + 4 ≤ fbha.heap.length
  · rw [get_heap_4bytes_ok _ _ hb] at h
    cases h
  · rw [get_heap_4bytes] at h
    rw [if_neg hb] at h
    cases h
    rfl

theorem get_heap_byte_error {fbha : FreeingBumpHeapAllocator} {ptr : Nat} {e : AllocError}
    (h : get_heap_byte fbha ptr = .error e) : e = .heapOutOfBounds := by
  by_cases hb : add32 fbha.ptr_offset ptr < fbha.heap.length
  · rw [get_heap_byte_ok _ _ hb] at h
    cases h
  · rw [get_heap_byte] at h
    rw [if_neg hb] at h
    cases h
    rfl

theorem set_heap_4bytes_error {fbha : FreeingBumpHeapAllocator} {ptr : Nat} {v : List Nat}
    {e : AllocError} (h : set_heap_4bytes fbha ptr v = .error e) : e = .heapOutOfBounds := by
  by_cases hb : add32 fbha.ptr_offset ptr + 4 ≤ fbha.heap.length
  · rw [set_heap_4bytes_ok _ _ _ hb] at h
    cases h
  · rw [set_heap_4bytes] at h
    rw [if_neg hb] at h
    cases h
    rfl

/-! ### Directed computation lemmas for `allocate` and `deallocate` -/

theorem allocate_tooLarge (fbha : FreeingBumpHeapAllocator) (s : Nat)
    (h : MAX_POSSIBLE_ALLOCATION < s) :
    allocate fbha s = (.error .allocationTooLarge, fbha) := by
  rw [allocate, if_pos h]

theorem allocate_oom (fbha : FreeingBumpHeapAllocator) (s : Nat)
    (h1 : ¬ MAX_POSSIBLE_ALLOCATION < s)
    (h2 : (nextPowerOf2GT8 s + 8 + fbha.total_size) % U32 > fbha.max_heap_size) :
    allocate fbha s = (.error .outOfMemory, fbha) := by
  rw [allocate, if_neg h1, if_pos h2]

/-- Successful bump-path allocation, fully characterised.  No hypothesis
relates the new bump cursor to `max_heap_size`: the Go code performs no
such check on this path. -/
theorem allocate_bump_eq (fbha : FreeingBumpHeapAllocator) (s : Nat)
    (h1 : ¬ MAX_POSSIBLE_ALLOCATION < s)
    (h2 : ¬ (nextPowerOf2GT8 s + 8 + fbha.total_size) % U32 > fbha.max_heap_size)
    (hheads : fbha.heads.getD (trailingZeros32 (nextPowerOf2GT8 s) - 3) 0 = 0)
    (hbw : fbha.bumper + 8 < U32)
    (hpw : fbha.ptr_offset + fbha.bumper + 8 < U32)
    (hpl : fbha.ptr_offset + fbha.bumper + 8 ≤ fbha.heap.length) :
    ∃ hp : List Nat,
      allocate fbha s =
        (.ok (add32 fbha.ptr_offset (fbha.bumper + 8)),
         { bumper := add32 fbha.bumper (nextPowerOf2GT8 s + 8)
           heads := fbha.heads
           heap := hp
           max_heap_size := fbha.max_heap_size
           ptr_offset := fbha.ptr_offset
           total_size := (fbha.total_size + nextPowerOf2GT8 s + 8) % U32 }) ∧
      hp.length = fbha.heap.length ∧
      ∀ q, hp.getD q 0 =
        if q = fbha.ptr_offset + fbha.bumper then trailingZeros32 (nextPowerOf2GT8 s) - 3
        else if fbha.ptr_offset + fbha.bumper ≤ q ∧ q < fbha.ptr_offset + fbha.bumper + 8 then 255
        else fbha.heap.getD q 0 := by
  have hli : trailingZeros32 (nextPowerOf2GT8 s) - 3 < N := list_index_lt (by omega)
  have hptr : add32 fbha.bumper 8 = fbha.bumper + 8 := add32_eq_of_lt hbw
  obtain ⟨h', hrun, hlen', hget⟩ :=
    write_header_loop_ok { fbha with bumper := add32 fbha.bumper (nextPowerOf2GT8 s + 8) }
      (fbha.bumper + 8) (by omega) (by simpa using hpw) (by simpa using hpl)
  have hlen2 : h'.length = fbha.heap.length := by simpa using hlen'
  have hget2 : ∀ q, h'.getD q 0 =
      if fbha.ptr_offset + fbha.bumper ≤ q ∧ q < fbha.ptr_offset + fbha.bumper + 8 then 255
      else fbha.heap.getD q 0 := by
    intro q
    have hq := hget q
    dsimp only at hq
    rw [hq]
    by_cases hc : fbha.ptr_offset + fbha.bumper ≤ q ∧ q < fbha.ptr_offset + fbha.bumper + 8
    · rw [if_pos (by omega), if_pos hc]
    · rw [if_neg (by omega), if_neg hc]
  have hsub8 : sub32 (fbha.bumper + 8) 8 = fbha.bumper :=
    sub32_eq_of_le (by omega) (by omega)
  have haddb : add32 fbha.ptr_offset fbha.bumper = fbha.ptr_offset + fbha.bumper :=
    add32_eq_of_lt (by omega)
  have hset : set_heap { fbha with
        bumper := add32 fbha.bumper (nextPowerOf2GT8 s + 8), heap := h' }
      fbha.bumper (trailingZeros32 (nextPowerOf2GT8 s) - 3) =
      .ok { fbha with
        bumper := add32 fbha.bumper (nextPowerOf2GT8 s + 8)
        heap := h'.set (fbha.ptr_offset + fbha.bumper)
          (trailingZeros32 (nextPowerOf2GT8 s) - 3) } := by
    rw [set_heap]
    dsimp only
    rw [haddb, if_pos (by rw [hlen2]; omega)]
  refine ⟨h'.set (fbha.ptr_offset + fbha.bumper) (trailingZeros32 (nextPowerOf2GT8 s) - 3),
    ?_, ?_, ?_⟩
  · rw [allocate, if_neg h1, if_neg h2, if_pos hli,
      if_neg (by simp only [ne_eq, not_not]; exact hheads)]
    dsimp only [bump]
    rw [hptr, hrun]
    dsimp only
    rw [hsub8, hset]
  · rw [List.length_set, hlen2]
  · intro q
    rw [getD_set_eq_ite, hlen2]
    rw [hget2 q]
    by_cases hq0 : q = fbha.ptr_offset + fbha.bumper
    · rw [if_pos ⟨hq0.symm, by omega⟩, if_pos hq0]
    · rw [if_neg (by intro hc; exact hq0 hc.1.symm), if_neg hq0]

/-- Successful free-list-pop allocation, fully characterised. -/
theorem allocate_pop_eq (fbha : FreeingBumpHeapAllocator) (s n : Nat)
    (h1 : ¬ MAX_POSSIBLE_ALLOCATION < s)
    (h2 : ¬ (nextPowerOf2GT8 s + 8 + fbha.total_size) % U32 > fbha.max_heap_size)
    (hheads : fbha.heads.getD (trailingZeros32 (nextPowerOf2GT8 s) - 3) 0 = n)
    (hn : n ≠ 0)
    (hnw : n + 8 < U32)
    (hpw : fbha.ptr_offset + n + 8 < U32)
    (hpl : fbha.ptr_offset + n + 8 ≤ fbha.heap.length) :
    ∃ hp : List Nat,
      allocate fbha s =
        (.ok (add32 fbha.ptr_offset (n + 8)),
         { bumper := fbha.bumper
           heads := (fbha.heads.set (trailingZeros32 (nextPowerOf2GT8 s) - 3)
             (leUint32 (heapBytes4 fbha.heap (fbha.ptr_offset + n))))
           heap := hp
           max_heap_size := fbha.max_heap_size
           ptr_offset := fbha.ptr_offset
           total_size := (fbha.total_size + nextPowerOf2GT8 s + 8) % U32 }) ∧
      hp.length = fbha.heap.length ∧
      ∀ q, hp.getD q 0 =
        if q = fbha.ptr_offset + n then trailingZeros32 (nextPowerOf2GT8 s) - 3
        else if fbha.ptr_offset + n ≤ q ∧ q < fbha.ptr_offset + n + 8 then 255
        else fbha.heap.getD q 0 := by
  have hli : trailingZeros32 (nextPowerOf2GT8 s) - 3 < N := list_index_lt (by omega)
  have haddn : add32 fbha.ptr_offset n = fbha.ptr_offset + n := add32_eq_of_lt (by omega)
  have hread : get_heap_4bytes fbha n = .ok (heapBytes4 fbha.heap (fbha.ptr_offset + n)) := by
    rw [get_heap_4bytes_ok _ _ (by rw [haddn]; omega), haddn]
  have hptr : add32 n 8 = n + 8 := add32_eq_of_lt hnw
  obtain ⟨h', hrun, hlen', hget⟩ :=
    write_header_loop_ok { fbha with heads := (fbha.heads.set
        (trailingZeros32 (nextPowerOf2GT8 s) - 3)
        (leUint32 (heapBytes4 fbha.heap (fbha.ptr_offset + n)))) }
      (n + 8) (by omega) (by simpa using hpw) (by simpa using hpl)
  have hlen2 : h'.length = fbha.heap.length := by simpa using hlen'
  have hget2 : ∀ q, h'.getD q 0 =
      if fbha.ptr_offset + n ≤ q ∧ q < fbha.ptr_offset + n + 8 then 255
      else fbha.heap.getD q 0 := by
    intro q
    have hq := hget q
    dsimp only at hq
    rw [hq]
    by_cases hc : fbha.ptr_offset + n ≤ q ∧ q < fbha.ptr_offset + n + 8
    · rw [if_pos (by omega), if_pos hc]
    · rw [if_neg (by omega), if_neg hc]
  have hsub8 : sub32 (n + 8) 8 = n := sub32_eq_of_le (by omega) (by omega)
  have hset : ∀ hd : List Nat,
      set_heap { fbha with heads := hd, heap := h' }
        n (trailingZeros32 (nextPowerOf2GT8 s) - 3) =
      .ok { fbha with heads := hd, heap := (h'.set (fbha.ptr_offset + n) (trailingZeros32 (nextPowerOf2GT8 s) - 3)) } := by
    intro hd
    rw [set_heap]
    dsimp only
    rw [haddn, if_pos (by rw [hlen2]; omega)]
  refine ⟨h'.set (fbha.ptr_offset + n) (trailingZeros32 (nextPowerOf2GT8 s) - 3), ?_, ?_, ?_⟩
  · rw [allocate, if_neg h1, if_neg h2, if_pos hli,
      if_pos (by rw [hheads]; exact hn), hheads]
    dsimp only
    rw [hread]
    dsimp only
    rw [hptr, hrun]
    dsimp only
    rw [hsub8, hset _]
  · rw [List.length_set, hlen2]
  · intro q
    rw [getD_set_eq_ite, hlen2]
    rw [hget2 q]
    by_cases hq0 : q = fbha.ptr_offset + n
    · rw [if_pos ⟨hq0.symm, by omega⟩, if_pos hq0]
    · rw [if_neg (by intro hc; exact hq0 hc.1.symm), if_neg hq0]

theorem deallocate_invalidPointer (fbha : FreeingBumpHeapAllocator) (p : Nat)
    (h : sub32 p fbha.ptr_offset < 8) :
    deallocate fbha p = (.error .invalidPointer, fbha) := by
  rw [deallocate, if_pos h]

/-- Successful deallocation, fully characterised. -/
theorem deallocate_ok_eq (fbha : FreeingBumpHeapAllocator) (p : Nat)
    (h8 : ¬ sub32 p fbha.ptr_offset < 8)
    (hread : add32 fbha.ptr_offset (sub32 p fbha.ptr_offset - 8) < fbha.heap.length)
    (hli : fbha.heap.getD (add32 fbha.ptr_offset (sub32 p fbha.ptr_offset - 8)) 0 < N)
    (hwrite : add32 fbha.ptr_offset (sub32 p fbha.ptr_offset - 8) + 4 ≤ fbha.heap.length) :
    deallocate fbha p =
      (.ok (),
       { bumper := fbha.bumper
         heads := fbha.heads.set
           (fbha.heap.getD (add32 fbha.ptr_offset (sub32 p fbha.ptr_offset - 8)) 0)
           (sub32 p fbha.ptr_offset - 8)
         heap := writeBytes fbha.heap (add32 fbha.ptr_offset (sub32 p fbha.ptr_offset - 8))
           (lePutUint32 (fbha.heads.getD
             (fbha.heap.getD (add32 fbha.ptr_offset (sub32 p fbha.ptr_offset - 8)) 0) 0))
         max_heap_size := fbha.max_heap_size
         ptr_offset := fbha.ptr_offset
         total_size := sub32 fbha.total_size
           (get_item_size_from_index
             (fbha.heap.getD (add32 fbha.ptr_offset (sub32 p fbha.ptr_offset - 8)) 0) + 8) }) := by
  rw [deallocate, if_neg h8, get_heap_byte_ok _ _ hread]
  dsimp only
  rw [if_pos hli]
  rw [set_heap_4bytes_ok _ _ _ (by dsimp only; exact hwrite)]

/-- On the path past both size checks, the only possible error is the
modelled heap panic. -/
theorem allocate_rest_error {fbha : FreeingBumpHeapAllocator} {s : Nat} {e : AllocError}
    (h1 : ¬ MAX_POSSIBLE_ALLOCATION < s)
    (h2 : ¬ (nextPowerOf2GT8 s + 8 + fbha.total_size) % U32 > fbha.max_heap_size)
    (h : (allocate fbha s).1 = .error e) : e = .heapOutOfBounds := by
  have hli : trailingZeros32 (nextPowerOf2GT8 s) - 3 < N := list_index_lt (by omega)
  rw [allocate, if_neg h1, if_neg h2, if_pos hli] at h
  dsimp only at h
  split at h
  next x e2 heq =>
    dsimp only at h
    injection h with h'
    rw [← h']
    split at heq
    next hc =>
      split at heq
      next e4 heq2 =>
        injection heq with h''
        rw [← h'']
        exact get_heap_4bytes_error heq2
      next bs heq2 => cases heq
    next hc => cases heq
  next x ptr1 fbha1 heq =>
    split at h
    next e2 fb2 heq2 =>
      dsimp only at h
      injection h with h'
      rw [← h']
      have hcl := write_header_loop_error [1, 2, 3, 4, 5, 6, 7, 8] fbha1 ptr1
      rw [heq2] at hcl
      dsimp only at hcl
      rcases hcl with hc | hc
      · simp at hc
      · injection hc with h''
        try rw [h'']
    next u fb2 heq2 =>
      split at h
      next e2 heq3 =>
        dsimp only at h
        injection h with h'
        rw [← h']
        exact set_heap_error heq3
      next fb3 heq3 =>
        dsimp only at h
        cases h

/-- Error classification for `allocate`: the listed Go-returned errors
leave the state untouched; any other failure is a modelled panic. -/
theorem allocate_fst_error_cases (fbha : FreeingBumpHeapAllocator) (s : Nat) (e : AllocError)
    (h : (allocate fbha s).1 = .error e) :
    (e = .allocationTooLarge ∧ MAX_POSSIBLE_ALLOCATION < s ∧ (allocate fbha s).2 = fbha) ∨
    (e = .outOfMemory ∧ ¬ MAX_POSSIBLE_ALLOCATION < s ∧ (allocate fbha s).2 = fbha) ∨
    e = .heapOutOfBounds := by
  by_cases h1 : MAX_POSSIBLE_ALLOCATION < s
  · left
    rw [allocate_tooLarge fbha s h1] at h ⊢
    refine ⟨?_, h1, rfl⟩
    injection h with h'
    exact h'.symm
  by_cases h2 : (nextPowerOf2GT8 s + 8 + fbha.total_size) % U32 > fbha.max_heap_size
  · right; left
    rw [allocate_oom fbha s h1 h2] at h ⊢
    refine ⟨?_, h1, rfl⟩
    injection h with h'
    exact h'.symm
  · right; right
    exact allocate_rest_error h1 h2 h

/-- Error classification for `deallocate`: `InvalidPointer` is raised only
by the early bounds test (state untouched); `headsOutOfBounds` models the
array-index panic on a header byte `≥ N` (state untouched, the panic
happens before any mutation); any other failure is a heap panic. -/
theorem deallocate_fst_error_cases (fbha : FreeingBumpHeapAllocator) (p : Nat) (e : AllocError)
    (h : (deallocate fbha p).1 = .error e) :
    (e = .invalidPointer ∧ sub32 p fbha.ptr_offset < 8 ∧ (deallocate fbha p).2 = fbha) ∨
    (e = .headsOutOfBounds ∧ (deallocate fbha p).2 = fbha) ∨
    e = .heapOutOfBounds := by
  by_cases h8 : sub32 p fbha.ptr_offset < 8
  · left
    rw [deallocate_invalidPointer fbha p h8] at h ⊢
    refine ⟨?_, h8, rfl⟩
    injection h with h'
    exact h'.symm
  · rw [deallocate, if_neg h8] at h ⊢
    split at h
    next e2 heq =>
      dsimp only at h
      injection h with h'
      right; right
      rw [← h']
      exact get_heap_byte_error heq
    next li heq =>
      by_cases hli : li < N
      · rw [if_pos hli] at h ⊢
        dsimp only at h ⊢
        split at h
        next e2 heq2 =>
          dsimp only at h
          injection h with h'
          right; right
          rw [← h']
          exact set_heap_4bytes_error heq2
        next fb2 heq2 =>
          dsimp only at h
          cases h
      · rw [if_neg hli] at h ⊢
        dsimp only at h ⊢
        injection h with h'
        right; left
        exact ⟨h'.symm, rfl⟩

/-! ### Support lemmas for the ghost-state invariant -/

theorem getD_replicate (n i : Nat) : (List.replicate n (0 : Nat)).getD i 0 = 0 := by
  rw [List.getD_eq_getElem?_getD, List.getElem?_replicate]
  split <;> rfl

theorem lePutUint32_length (v : Nat) : (lePutUint32 v).length = 4 := rfl

theorem heapBytes4_writeBytes_lePut (heap : List Nat) (a v : Nat)
    (h : a + 4 ≤ heap.length) :
    heapBytes4 (writeBytes heap a (lePutUint32 v)) a = lePutUint32 v := by
  have hlen := lePutUint32_length v
  simp only [heapBytes4]
  rw [getD_writeBytes, getD_writeBytes, getD_writeBytes, getD_writeBytes]
  rw [if_pos (by omega), if_pos (by omega), if_pos (by omega), if_pos (by omega)]
  have e0 : a - a = 0 := by omega
  have e1 : a + 1 - a = 1 := by omega
  have e2 : a + 2 - a = 2 := by omega
  have e3 : a + 3 - a = 3 := by omega
  rw [e0, e1, e2, e3]
  rfl

theorem getD_writeBytes_lePut_outside (heap : List Nat) (a v q : Nat)
    (h : q < a ∨ a + 4 ≤ q) :
    (writeBytes heap a (lePutUint32 v)).getD q 0 = heap.getD q 0 := by
  have hlen := lePutUint32_length v
  rw [getD_writeBytes, if_neg (by omega)]

theorem sum_contribution (f : LiveBlock → Nat) {b : LiveBlock} {l : List LiveBlock}
    (hb : b ∈ l) : (l.map f).sum = f b + ((l.erase b).map f).sum := by
  have hperm : List.Perm l (b :: l.erase b) := List.perm_cons_erase hb
  have := (hperm.map f).sum_eq
  simpa using this

theorem BlockOK_mono {st st' : FreeingBumpHeapAllocator} {a i : Nat}
    (h : BlockOK st a i)
    (hpo : st'.ptr_offset = st.ptr_offset)
    (hlen : st'.heap.length = st.heap.length)
    (hb : st.bumper ≤ st'.bumper) : BlockOK st' a i := by
  refine ⟨h.idx_lt, by have := h.below_bumper; omega, ?_⟩
  rw [hpo, hlen]
  exact h.header_in

theorem ChainOK_mono {st st' : FreeingBumpHeapAllocator} {i : Nat} {c : List Nat}
    (h : ChainOK st i c)
    (hpo : st'.ptr_offset = st.ptr_offset)
    (hlen : st'.heap.length = st.heap.length)
    (hb : st.bumper ≤ st'.bumper)
    (hbytes : ∀ n ∈ c, heapBytes4 st'.heap (st.ptr_offset + n) =
      heapBytes4 st.heap (st.ptr_offset + n)) : ChainOK st' i c := by
  induction c with
  | nil => trivial
  | cons n rest ih =>
    obtain ⟨hn, hok, hlink, hrest⟩ := h
    refine ⟨hn, BlockOK_mono hok hpo hlen hb, ?_, ?_⟩
    · obtain ⟨hby, hw⟩ := hlink
      constructor
      · rw [hpo, hbytes n (List.mem_cons_self n rest)]
        exact hby
      · exact hw
    · exact ih hrest (fun m hm => hbytes m (List.mem_cons_of_mem _ hm))

theorem ChainOK_mem {st : FreeingBumpHeapAllocator} {i : Nat} {c : List Nat}
    (h : ChainOK st i c) : ∀ n ∈ c, n ≠ 0 ∧ BlockOK st n i := by
  induction c with
  | nil =>
    intro n hn
    cases hn
  | cons m rest ih =>
    intro n hn
    obtain ⟨hm, hok, -, hrest⟩ := h
    rcases List.mem_cons.mp hn with h' | h'
    · subst h'
      exact ⟨hm, hok⟩
    · exact ih hrest n h'

theorem classIdx_lt {s : Nat} (h : s ≤ MAX_POSSIBLE_ALLOCATION) : classIdx s < N :=
  list_index_lt h

theorem blockSize_classIdx {s : Nat} (h : s ≤ MAX_POSSIBLE_ALLOCATION) :
    blockSize (classIdx s) = nextPowerOf2GT8 s :=
  item_size_recover h

theorem blockSize_le {i : Nat} (h : i < N) : blockSize i ≤ 16777216 := by
  simp only [blockSize]
  calc 8 * 2 ^ i ≤ 8 * 2 ^ 21 := by
        exact Nat.mul_le_mul_left _ (Nat.pow_le_pow_right (by omega)
          (by simp only [N] at h; omega))
  _ = 16777216 := by norm_num

theorem blockSize_pos (i : Nat) : 8 ≤ blockSize i := by
  simp only [blockSize]
  have : 1 ≤ 2 ^ i := Nat.one_le_two_pow
  omega

/-! ### Out-of-bounds directed lemmas and success preconditions -/

/-- If the free list is empty and the fresh region's header bytes do not
fit in the heap buffer, the bump-path allocation panics. -/
theorem allocate_bump_oob_fst (fbha : FreeingBumpHeapAllocator) (s : Nat)
    (h1 : ¬ MAX_POSSIBLE_ALLOCATION < s)
    (h2 : ¬ (nextPowerOf2GT8 s + 8 + fbha.total_size) % U32 > fbha.max_heap_size)
    (hheads : fbha.heads.getD (trailingZeros32 (nextPowerOf2GT8 s) - 3) 0 = 0)
    (hbw : fbha.bumper + 8 < U32)
    (hpw : fbha.ptr_offset + fbha.bumper + 8 < U32)
    (hpl : ¬ fbha.ptr_offset + fbha.bumper + 8 ≤ fbha.heap.length) :
    (allocate fbha s).1 = .error .heapOutOfBounds := by
  have hli : trailingZeros32 (nextPowerOf2GT8 s) - 3 < N := list_index_lt (by omega)
  have hptr : add32 fbha.bumper 8 = fbha.bumper + 8 := add32_eq_of_lt hbw
  have hsub : sub32 (fbha.bumper + 8) 1 = fbha.bumper + 7 :=
    sub32_eq_of_le (by omega) (by omega)
  have hfail : set_heap { fbha with bumper := add32 fbha.bumper (nextPowerOf2GT8 s + 8) }
      (sub32 (fbha.bumper + 8) 1) 255 = .error .heapOutOfBounds := by
    rw [set_heap]
    dsimp only
    rw [hsub, add32_eq_of_lt (by omega), if_neg (by omega)]
  rw [allocate, if_neg h1, if_neg h2, if_pos hli,
    if_neg (by simp only [ne_eq, not_not]; exact hheads)]
  dsimp only [bump]
  rw [hptr]
  rw [write_header_loop, hfail]

/-- If the free list head is a nonzero block whose 8 header bytes do not
fit in the heap buffer, the pop-path allocation panics (either at the
4-byte link read or at the first header-byte write). -/
theorem allocate_pop_oob_fst (fbha : FreeingBumpHeapAllocator) (s n : Nat)
    (h1 : ¬ MAX_POSSIBLE_ALLOCATION < s)
    (h2 : ¬ (nextPowerOf2GT8 s + 8 + fbha.total_size) % U32 > fbha.max_heap_size)
    (hheads : fbha.heads.getD (trailingZeros32 (nextPowerOf2GT8 s) - 3) 0 = n)
    (hn : n ≠ 0)
    (hnw : n + 8 < U32)
    (hpw : fbha.ptr_offset + n + 8 < U32)
    (hpl : ¬ fbha.ptr_offset + n + 8 ≤ fbha.heap.length) :
    (allocate fbha s).1 = .error .heapOutOfBounds := by
  have hli : trailingZeros32 (nextPowerOf2GT8 s) - 3 < N := list_index_lt (by omega)
  have haddn : add32 fbha.ptr_offset n = fbha.ptr_offset + n := add32_eq_of_lt (by omega)
  rw [allocate, if_neg h1, if_neg h2, if_pos hli,
    if_pos (by rw [hheads]; exact hn), hheads]
  dsimp only
  by_cases hrd : fbha.ptr_offset + n + 4 ≤ fbha.heap.length
  · have hread : get_heap_4bytes fbha n = .ok (heapBytes4 fbha.heap (fbha.ptr_offset + n)) := by
      rw [get_heap_4bytes_ok _ _ (by rw [haddn]; omega), haddn]
    rw [hread]
    dsimp only
    have hptr : add32 n 8 = n + 8 := add32_eq_of_lt hnw
    rw [hptr]
    have hsub : sub32 (n + 8) 1 = n + 7 := sub32_eq_of_le (by omega) (by omega)
    have hfail : set_heap { fbha with heads := (fbha.heads.set
        (trailingZeros32 (nextPowerOf2GT8 s) - 3)
        (leUint32 (heapBytes4 fbha.heap (fbha.ptr_offset + n)))) }
        (sub32 (n + 8) 1) 255 = .error .heapOutOfBounds := by
      rw [set_heap]
      dsimp only
      rw [hsub, add32_eq_of_lt (by omega), if_neg (by omega)]
    rw [write_header_loop, hfail]
  · have hread : get_heap_4bytes fbha n = .error .heapOutOfBounds := by
      rw [get_heap_4bytes]
      rw [haddn, if_neg (by omega)]
    rw [hread]

/-- `deallocate` never changes the bump cursor, in any state. -/
theorem deallocate_bumper (fbha : FreeingBumpHeapAllocator) (p : Nat) :
    (deallocate fbha p).2.bumper = fbha.bumper := by
  rw [deallocate]
  split
  · rfl
  · split
    next e heq => rfl
    next li heq =>
      split
      · dsimp only
        split
        next e heq2 => rfl
        next fb2 heq2 =>
          rw [set_heap_4bytes] at heq2
          dsimp only at heq2
          split at heq2
          · cases heq2; rfl
          · cases heq2
      · rfl

/-- A successful `allocate` passed both size checks. -/
theorem allocate_ok_checks {fbha : FreeingBumpHeapAllocator} {s p : Nat}
    (h : (allocate fbha s).1 = .ok p) :
    ¬ MAX_POSSIBLE_ALLOCATION < s ∧
    ¬ (nextPowerOf2GT8 s + 8 + fbha.total_size) % U32 > fbha.max_heap_size := by
  by_cases h1 : MAX_POSSIBLE_ALLOCATION < s
  · rw [allocate_tooLarge fbha s h1] at h
    cases h
  by_cases h2 : (nextPowerOf2GT8 s + 8 + fbha.total_size) % U32 > fbha.max_heap_size
  · rw [allocate_oom fbha s h1 h2] at h
    cases h
  exact ⟨h1, h2⟩

/-- On the path past the pointer test, an out-of-bounds header read
panics. -/
theorem deallocate_read_oob_fst (fbha : FreeingBumpHeapAllocator) (p : Nat)
    (h8 : ¬ sub32 p fbha.ptr_offset < 8)
    (hrd : ¬ add32 fbha.ptr_offset (sub32 p fbha.ptr_offset - 8) < fbha.heap.length) :
    (deallocate fbha p).1 = .error .heapOutOfBounds := by
  have hread : get_heap_byte fbha (sub32 p fbha.ptr_offset - 8) = .error .heapOutOfBounds := by
    rw [get_heap_byte]
    rw [if_neg hrd]
  rw [deallocate, if_neg h8, hread]

/-- A header byte that is not below `N` makes `deallocate` panic on the
`heads` array access, before any mutation. -/
theorem deallocate_bad_class_eq (fbha : FreeingBumpHeapAllocator) (p b : Nat)
    (h8 : ¬ sub32 p fbha.ptr_offset < 8)
    (hb : get_heap_byte fbha (sub32 p fbha.ptr_offset - 8) = .ok b)
    (hN : N ≤ b) :
    deallocate fbha p = (.error .headsOutOfBounds, fbha) := by
  rw [deallocate, if_neg h8, hb]
  dsimp only
  rw [if_neg (by omega)]

/-- On the path past the class test, an out-of-bounds link write
panics. -/
theorem deallocate_write_oob_fst (fbha : FreeingBumpHeapAllocator) (p : Nat)
    (h8 : ¬ sub32 p fbha.ptr_offset < 8)
    (hrd : add32 fbha.ptr_offset (sub32 p fbha.ptr_offset - 8) < fbha.heap.length)
    (hli : fbha.heap.getD (add32 fbha.ptr_offset (sub32 p fbha.ptr_offset - 8)) 0 < N)
    (hwr : ¬ add32 fbha.ptr_offset (sub32 p fbha.ptr_offset - 8) + 4 ≤ fbha.heap.length) :
    (deallocate fbha p).1 = .error .heapOutOfBounds := by
  rw [deallocate, if_neg h8, get_heap_byte_ok _ _ hrd]
  dsimp only
  rw [if_pos hli]
  have hfail : set_heap_4bytes
      { fbha with heads := (fbha.heads.set
          (fbha.heap.getD (add32 fbha.ptr_offset (sub32 p fbha.ptr_offset - 8)) 0)
          (sub32 p fbha.ptr_offset - 8)) }
      (sub32 p fbha.ptr_offset - 8)
      (lePutUint32 (fbha.heads.getD
        (fbha.heap.getD (add32 fbha.ptr_offset (sub32 p fbha.ptr_offset - 8)) 0) 0)) =
      .error .heapOutOfBounds := by
    rw [set_heap_4bytes]
    dsimp only
    rw [if_neg hwr]
  rw [hfail]

/-- A successful `deallocate` implies all four path conditions. -/
theorem deallocate_ok_conditions {fbha : FreeingBumpHeapAllocator} {p : Nat}
    (h : (deallocate fbha p).1 = .ok ()) :
    ¬ sub32 p fbha.ptr_offset < 8 ∧
    add32 fbha.ptr_offset (sub32 p fbha.ptr_offset - 8) < fbha.heap.length ∧
    fbha.heap.getD (add32 fbha.ptr_offset (sub32 p fbha.ptr_offset - 8)) 0 < N ∧
    add32 fbha.ptr_offset (sub32 p fbha.ptr_offset - 8) + 4 ≤ fbha.heap.length := by
  by_cases h8 : sub32 p fbha.ptr_offset < 8
  · rw [deallocate_invalidPointer fbha p h8] at h
    cases h
  by_cases hrd : add32 fbha.ptr_offset (sub32 p fbha.ptr_offset - 8) < fbha.heap.length
  · by_cases hli : fbha.heap.getD (add32 fbha.ptr_offset (sub32 p fbha.ptr_offset - 8)) 0 < N
    · by_cases hwr : add32 fbha.ptr_offset (sub32 p fbha.ptr_offset - 8) + 4 ≤ fbha.heap.length
      · exact ⟨h8, hrd, hli, hwr⟩
      · rw [deallocate_write_oob_fst fbha p h8 hrd hli hwr] at h
        cases h
    · rw [deallocate_bad_class_eq fbha p _ h8 (get_heap_byte_ok _ _ hrd) (by omega)] at h
      cases h
  · rw [deallocate_read_oob_fst fbha p h8 hrd] at h
    cases h

theorem extDisj_symm {a i b j : Nat} (h : extDisj a i b j) : extDisj b j a i :=
  h.elim Or.inr Or.inl

theorem heapBytes4_congr {h1 h2 : List Nat} {a : Nat}
    (hk : ∀ k, k < 4 → h1.getD (a + k) 0 = h2.getD (a + k) 0) :
    heapBytes4 h1 a = heapBytes4 h2 a := by
  have h0 : h1.getD a 0 = h2.getD a 0 := by
    have := hk 0 (by omega)
    simpa using this
  simp only [heapBytes4]
  rw [h0, hk 1 (by omega), hk 2 (by omega), hk 3 (by omega)]

/-- The pairwise-disjointness relation on live blocks, shared by the
invariant clauses. -/
theorem live_rel_symm :
    Symmetric (fun (a b : LiveBlock) =>
      extDisj a.start (classIdx a.size) b.start (classIdx b.size)) :=
  fun _ _ h => extDisj_symm h

/-- The invariant holds for a freshly constructed allocator. -/
theorem inv_init (mem : List Nat) (po : Nat)
    (hpo : po ≤ mem.length)
    (hlen : mem.length + po + 2 ^ 27 ≤ U32) :
    Inv (newAllocator mem po) [] (fun _ => []) := by
  have hLU : mem.length < U32 := by simp only [U32] at *; omega
  have hpo' : (newAllocator mem po).ptr_offset ≤ po + 7 := by
    show (if po % ALIGNMENT ≠ 0 then add32 po (ALIGNMENT - po % ALIGNMENT) else po) ≤ po + 7
    by_cases hp : po % ALIGNMENT = 0
    · rw [if_neg (by simp [hp])]
      omega
    · rw [if_pos (by simp [hp])]
      show add32 po (8 - po % 8) ≤ po + 7
      have hm : po % 8 < 8 := Nat.mod_lt po (by omega)
      have hm1 : 1 ≤ po % 8 := by
        simp only [ALIGNMENT] at hp
        omega
      rw [add32_eq_of_lt (by simp only [U32] at *; omega)]
      omega
  have hmax : (newAllocator mem po).max_heap_size = mem.length - po := by
    show sub32 mem.length po = _
    exact sub32_eq_of_le hpo hLU
  have hheap : (newAllocator mem po).heap = mem := rfl
  have hbumper : (newAllocator mem po).bumper = 0 := rfl
  have htotal : (newAllocator mem po).total_size = 0 := rfl
  have hheads : (newAllocator mem po).heads = List.replicate N 0 := rfl
  refine ⟨?_, ?_, ?_, ?_, ?_, ?_, ?_, ?_, ?_, ?_, ?_, ?_, ?_, ?_, ?_⟩
  · rw [hheap]
    simp only [U32] at *
    omega
  · rw [hmax]
    simp only [U32] at *
    omega
  · rw [hheads, List.length_replicate]
  · rw [hheap, hbumper]
    omega
  · rw [htotal]
    rfl
  · rw [htotal]
    omega
  · intro b hb
    cases hb
  · intro b hb
    cases hb
  · intro b hb
    cases hb
  · exact List.Pairwise.nil
  · intro b hb
    cases hb
  · intro i _
    trivial
  · intro i _
    exact List.Pairwise.nil
  · intro i j _ _ _ a ha
    cases ha
  · intro i _
    rw [hheads, getD_replicate]
    rfl

/-- Invariant preservation: successful deallocation of a live block. -/
theorem inv_dealloc {st : FreeingBumpHeapAllocator} {live : List LiveBlock}
    {free : Nat → List Nat} {b : LiveBlock}
    (inv : Inv st live free) (hb : b ∈ live)
    (h : (deallocate st (add32 st.ptr_offset (b.start + 8))).1 = .ok ()) :
    ∃ free', Inv (deallocate st (add32 st.ptr_offset (b.start + 8))).2
      (live.erase b) free' := by
  have hOK := inv.live_ok b hb
  have hdr := inv.live_hdr b hb
  have hiN : classIdx b.size < N := hOK.idx_lt
  have hbelow := hOK.below_bumper
  have hhdrin := hOK.header_in
  have hstat := inv.static_len
  have hbb := inv.bump_bound
  have hbs8 := blockSize_pos (classIdx b.size)
  have hwrap : b.start + 8 < U32 := by
    simp only [U32] at *
    omega
  have hsubP : sub32 (add32 st.ptr_offset (b.start + 8)) st.ptr_offset = b.start + 8 :=
    sub32_add32_cancel hwrap
  have he1 : sub32 (add32 st.ptr_offset (b.start + 8)) st.ptr_offset - 8 = b.start := by
    rw [hsubP]
    omega
  have he2 : add32 st.ptr_offset
      (sub32 (add32 st.ptr_offset (b.start + 8)) st.ptr_offset - 8) =
      st.ptr_offset + b.start := by
    rw [he1]
    exact add32_eq_of_lt (by simp only [U32] at *; omega)
  have hbyte : st.heap.getD (add32 st.ptr_offset
      (sub32 (add32 st.ptr_offset (b.start + 8)) st.ptr_offset - 8)) 0 =
      classIdx b.size := by
    rw [he2]
    exact hdr
  have hde := deallocate_ok_eq st (add32 st.ptr_offset (b.start + 8))
    (by rw [hsubP]; omega)
    (by rw [he2]; omega)
    (by rw [hbyte]; exact hiN)
    (by rw [he2]; omega)
  rw [hbyte, he2, he1] at hde
  have hmatch := inv.heads_match (classIdx b.size) hiN
  rw [hmatch, get_item_size_eq hiN] at hde
  have hcontrib : blockSize (classIdx b.size) + 8 ≤ st.total_size := by
    rw [inv.total_eq, sum_contribution (fun c => blockSize (classIdx c.size) + 8) hb]
    omega
  have htot32 : st.total_size < U32 := by
    have h1 := inv.total_max
    have h2 := inv.static_max
    simp only [U32] at *
    omega
  have htotal' : sub32 st.total_size (8 * 2 ^ classIdx b.size + 8) =
      st.total_size - (blockSize (classIdx b.size) + 8) := by
    have hbsdef : blockSize (classIdx b.size) = 8 * 2 ^ classIdx b.size := rfl
    rw [← hbsdef]
    exact sub32_eq_of_le hcontrib htot32
  rw [htotal'] at hde
  have h2eq := congrArg Prod.snd hde
  dsimp only at h2eq
  rw [h2eq]
  -- helper facts about the single 4-byte link write
  have hin_erase : ∀ c ∈ live.erase b, c ∈ live := fun c hc => List.mem_of_mem_erase hc
  have hpairb : ∀ c ∈ live.erase b,
      extDisj b.start (classIdx b.size) c.start (classIdx c.size) := by
    have hperm := List.perm_cons_erase hb
    have hpw := (hperm.pairwise_iff (fun hxy => live_rel_symm hxy)).mp inv.live_disj
    exact (List.pairwise_cons.mp hpw).1
  have houts : ∀ q, q < st.ptr_offset + b.start ∨ st.ptr_offset + b.start + 4 ≤ q →
      (writeBytes st.heap (st.ptr_offset + b.start)
        (lePutUint32 (headOf (free (classIdx b.size))))).getD q 0 = st.heap.getD q 0 :=
    fun q hq => getD_writeBytes_lePut_outside _ _ _ _ hq
  have hout4 : ∀ m jm, extDisj b.start (classIdx b.size) m jm →
      ∀ k, k < 4 →
      (writeBytes st.heap (st.ptr_offset + b.start)
        (lePutUint32 (headOf (free (classIdx b.size))))).getD (st.ptr_offset + m + k) 0 =
      st.heap.getD (st.ptr_offset + m + k) 0 := by
    intro m jm hdisj k hk
    apply houts
    have hp1 := blockSize_pos jm
    rcases hdisj with hlt | hgt
    · right; omega
    · left; omega
  have hk4 : ∀ m jm, extDisj b.start (classIdx b.size) m jm →
      heapBytes4 (writeBytes st.heap (st.ptr_offset + b.start)
        (lePutUint32 (headOf (free (classIdx b.size))))) (st.ptr_offset + m) =
      heapBytes4 st.heap (st.ptr_offset + m) := by
    intro m jm hdisj
    exact heapBytes4_congr (fun k hk => hout4 m jm hdisj k hk)
  have htail32 : headOf (free (classIdx b.size)) < U32 := by
    have hco := inv.chain_ok _ hiN
    cases hfi : free (classIdx b.size) with
    | nil => simp [headOf, U32]
    | cons m rest =>
      rw [hfi] at hco
      obtain ⟨-, hmok, -, -⟩ := hco
      have := hmok.below_bumper
      show m < U32
      simp only [U32] at *
      omega
  have hfdisj : ∀ j, j < N → ∀ m ∈ free j, extDisj b.start (classIdx b.size) m j :=
    fun j hj m hm => inv.live_free_disj b hb j hj m hm
  refine ⟨fun j => if j = classIdx b.size then
      (if b.start = 0 then [] else b.start :: free (classIdx b.size)) else free j,
    ?_, ?_, ?_, ?_, ?_, ?_, ?_, ?_, ?_, ?_, ?_, ?_, ?_, ?_, ?_⟩
  · show st.ptr_offset + (writeBytes _ _ _).length + 2 ^ 26 ≤ U32
    rw [length_writeBytes]
    exact inv.static_len
  · exact inv.static_max
  · show (st.heads.set _ _).length = N
    rw [List.length_set]
    exact inv.heads_len
  · show st.ptr_offset + st.bumper ≤ (writeBytes _ _ _).length + 2 ^ 25
    rw [length_writeBytes]
    exact inv.bump_bound
  · show st.total_size - (blockSize (classIdx b.size) + 8) = _
    rw [inv.total_eq, sum_contribution (fun c => blockSize (classIdx c.size) + 8) hb]
    omega
  · show st.total_size - (blockSize (classIdx b.size) + 8) ≤ st.max_heap_size
    have := inv.total_max
    omega
  · intro c hc
    exact inv.size_max c (hin_erase c hc)
  · intro c hc
    exact BlockOK_mono (inv.live_ok c (hin_erase c hc)) rfl
      (by show (writeBytes _ _ _).length = _; rw [length_writeBytes]) (le_refl _)
  · intro c hc
    show (writeBytes _ _ _).getD (st.ptr_offset + c.start) 0 = classIdx c.size
    rw [houts (st.ptr_offset + c.start) ?_]
    · exact inv.live_hdr c (hin_erase c hc)
    · have hd := hpairb c hc
      have hp1 := blockSize_pos (classIdx c.size)
      rcases hd with hlt | hgt
      · right; omega
      · left; omega
  · exact inv.live_disj.sublist (List.erase_sublist b live)
  · intro c hc j hj m hm
    by_cases hji : j = classIdx b.size
    · subst hji
      rw [if_pos rfl] at hm
      by_cases hb0 : b.start = 0
      · rw [if_pos hb0] at hm
        cases hm
      · rw [if_neg hb0] at hm
        rcases List.mem_cons.mp hm with hmb | hmf
        · subst hmb
          exact extDisj_symm (hpairb c hc)
        · exact inv.live_free_disj c (hin_erase c hc) _ hj m hmf
    · rw [if_neg hji] at hm
      exact inv.live_free_disj c (hin_erase c hc) j hj m hm
  · intro j hj
    by_cases hji : j = classIdx b.size
    · subst hji
      rw [if_pos rfl]
      by_cases hb0 : b.start = 0
      · rw [if_pos hb0]
        trivial
      · rw [if_neg hb0]
        refine ⟨hb0, ?_, ?_, ?_⟩
        · exact BlockOK_mono hOK rfl
            (by show (writeBytes _ _ _).length = _; rw [length_writeBytes]) (le_refl _)
        · constructor
          · show heapBytes4 (writeBytes _ _ _) (st.ptr_offset + b.start) = _
            exact heapBytes4_writeBytes_lePut _ _ _ (by omega)
          · exact htail32
        · refine ChainOK_mono (inv.chain_ok _ hj) rfl
            (by show (writeBytes _ _ _).length = _; rw [length_writeBytes]) (le_refl _) ?_
          intro m hm
          exact hk4 m (classIdx b.size) (hfdisj _ hj m hm)
    · rw [if_neg hji]
      refine ChainOK_mono (inv.chain_ok _ hj) rfl
        (by show (writeBytes _ _ _).length = _; rw [length_writeBytes]) (le_refl _) ?_
      intro m hm
      exact hk4 m j (hfdisj _ hj m hm)
  · intro j hj
    by_cases hji : j = classIdx b.size
    · subst hji
      rw [if_pos rfl]
      by_cases hb0 : b.start = 0
      · rw [if_pos hb0]
        exact List.Pairwise.nil
      · rw [if_neg hb0]
        rw [List.pairwise_cons]
        refine ⟨?_, inv.chain_disj _ hj⟩
        intro m hm
        exact hfdisj _ hj m hm
    · rw [if_neg hji]
      exact inv.chain_disj j hj
  · intro i j hi hj hij a ha c hc
    by_cases hii : i = classIdx b.size
    · subst hii
      rw [if_pos rfl] at ha
      rw [if_neg (by omega)] at hc
      by_cases hb0 : b.start = 0
      · rw [if_pos hb0] at ha
        cases ha
      · rw [if_neg hb0] at ha
        rcases List.mem_cons.mp ha with hab | haf
        · subst hab
          exact hfdisj _ hj c hc
        · exact inv.cross_disj _ _ hi hj hij a haf c hc
    · rw [if_neg hii] at ha
      by_cases hjj : j = classIdx b.size
      · subst hjj
        rw [if_pos rfl] at hc
        by_cases hb0 : b.start = 0
        · rw [if_pos hb0] at hc
          cases hc
        · rw [if_neg hb0] at hc
          rcases List.mem_cons.mp hc with hcb | hcf
          · subst hcb
            exact extDisj_symm (hfdisj _ hi a ha)
          · exact inv.cross_disj _ _ hi hj hij a ha c hcf
      · rw [if_neg hjj] at hc
        exact inv.cross_disj i j hi hj hij a ha c hc
  · intro j hj
    show (st.heads.set (classIdx b.size) b.start).getD j 0 = _
    rw [getD_set_eq_ite]
    by_cases hji : classIdx b.size = j
    · rw [if_pos ⟨hji, by rw [inv.heads_len]; omega⟩]
      subst hji
      rw [if_pos rfl]
      by_cases hb0 : b.start = 0
      · rw [if_pos hb0, hb0]
        rfl
      · rw [if_neg hb0]
        rfl
    · rw [if_neg (by intro hc; exact hji hc.1), if_neg (by omega)]
      exact inv.heads_match j hj

/-- Invariant preservation: successful allocation.  The ghost block start
is the relative offset of the returned region's header. -/
theorem inv_alloc {st : FreeingBumpHeapAllocator} {live : List LiveBlock}
    {free : Nat → List Nat} {s p : Nat}
    (inv : Inv st live free)
    (h : (allocate st s).1 = .ok p) :
    ∃ free', Inv (allocate st s).2
      ({ start := sub32 p st.ptr_offset - 8, size := s } :: live) free' := by
  obtain ⟨h1, h2⟩ := allocate_ok_checks h
  have hsM : s ≤ MAX_POSSIBLE_ALLOCATION := by omega
  have hiN : classIdx s < N := classIdx_lt hsM
  have hci : trailingZeros32 (nextPowerOf2GT8 s) - 3 = classIdx s := rfl
  have hitem8 : 8 ≤ nextPowerOf2GT8 s := nextPowerOf2GT8_ge_8 hsM
  have hitemM : nextPowerOf2GT8 s ≤ MAX_POSSIBLE_ALLOCATION := nextPowerOf2GT8_le_max hsM
  have hbs : blockSize (classIdx s) = nextPowerOf2GT8 s := blockSize_classIdx hsM
  have hstat := inv.static_len
  have hsmax := inv.static_max
  have hbb := inv.bump_bound
  have htmax := inv.total_max
  have htot32 : st.total_size + nextPowerOf2GT8 s + 8 < U32 := by
    simp only [U32, MAX_POSSIBLE_ALLOCATION] at hsmax htmax hitemM ⊢
    omega
  have htoteq : (st.total_size + nextPowerOf2GT8 s + 8) % U32 =
      st.total_size + nextPowerOf2GT8 s + 8 := Nat.mod_eq_of_lt htot32
  have htots : st.total_size + nextPowerOf2GT8 s + 8 ≤ st.max_heap_size := by
    rw [Nat.mod_eq_of_lt (by omega)] at h2
    omega
  have hmatch := inv.heads_match (classIdx s) hiN
  cases hfree : free (classIdx s) with
  | nil =>
    have hheads : st.heads.getD (trailingZeros32 (nextPowerOf2GT8 s) - 3) 0 = 0 := by
      rw [hci, hmatch, hfree]
      rfl
    have hbw : st.bumper + 8 < U32 := by
      simp only [U32] at *
      omega
    have hpw : st.ptr_offset + st.bumper + 8 < U32 := by
      simp only [U32] at *
      omega
    by_cases hpl : st.ptr_offset + st.bumper + 8 ≤ st.heap.length
    case neg =>
      rw [allocate_bump_oob_fst st s h1 h2 hheads hbw hpw hpl] at h
      cases h
    obtain ⟨hpn, heq, hlen, hget⟩ := allocate_bump_eq st s h1 h2 hheads hbw hpw hpl
    have hbump : add32 st.bumper (nextPowerOf2GT8 s + 8) =
        st.bumper + (nextPowerOf2GT8 s + 8) := by
      apply add32_eq_of_lt
      simp only [U32, MAX_POSSIBLE_ALLOCATION] at *
      omega
    rw [hbump, htoteq] at heq
    simp only [hci] at hget
    have hp' : add32 st.ptr_offset (st.bumper + 8) = p := by
      have h1eq := congrArg Prod.fst heq
      dsimp only at h1eq
      rw [h1eq] at h
      exact Except.ok.inj h
    have hstart : sub32 p st.ptr_offset - 8 = st.bumper := by
      rw [← hp', sub32_add32_cancel hbw]
      omega
    have h2eq := congrArg Prod.snd heq
    dsimp only at h2eq
    rw [hstart, h2eq]
    have hout : ∀ q, q < st.ptr_offset + st.bumper → hpn.getD q 0 = st.heap.getD q 0 := by
      intro q hq
      rw [hget q, if_neg (by omega), if_neg (by omega)]
    have hk4 : ∀ m j, m + blockSize j + 8 ≤ st.bumper →
        heapBytes4 hpn (st.ptr_offset + m) = heapBytes4 st.heap (st.ptr_offset + m) := by
      intro m j hm
      apply heapBytes4_congr
      intro k hk
      apply hout
      have h8 := blockSize_pos j
      omega
    refine ⟨free, ?_, ?_, ?_, ?_, ?_, ?_, ?_, ?_, ?_, ?_, ?_, ?_, ?_, ?_, ?_⟩
    · show st.ptr_offset + hpn.length + 2 ^ 26 ≤ U32
      rw [hlen]
      exact hstat
    · exact hsmax
    · exact inv.heads_len
    · show st.ptr_offset + (st.bumper + (nextPowerOf2GT8 s + 8)) ≤ hpn.length + 2 ^ 25
      rw [hlen]
      simp only [MAX_POSSIBLE_ALLOCATION] at hitemM
      omega
    · show st.total_size + nextPowerOf2GT8 s + 8 = _
      simp only [List.map_cons, List.sum_cons]
      rw [← inv.total_eq]
      show _ = blockSize (classIdx s) + 8 + st.total_size
      rw [hbs]
      omega
    · exact htots
    · intro b hb
      rcases List.mem_cons.mp hb with hbn | hbo
      · subst hbn
        exact hsM
      · exact inv.size_max b hbo
    · intro b hb
      rcases List.mem_cons.mp hb with hbn | hbo
      · subst hbn
        refine ⟨hiN, ?_, ?_⟩
        · show st.bumper + blockSize (classIdx s) + 8 ≤ st.bumper + (nextPowerOf2GT8 s + 8)
          rw [hbs]
          omega
        · show st.ptr_offset + st.bumper + 8 ≤ hpn.length
          rw [hlen]
          exact hpl
      · exact BlockOK_mono (inv.live_ok b hbo) rfl hlen (Nat.le_add_right _ _)
    · intro b hb
      rcases List.mem_cons.mp hb with hbn | hbo
      · subst hbn
        show hpn.getD (st.ptr_offset + st.bumper) 0 = classIdx s
        rw [hget, if_pos rfl]
      · show hpn.getD (st.ptr_offset + b.start) 0 = classIdx b.size
        rw [hout _ ?_]
        · exact inv.live_hdr b hbo
        · have hbel := (inv.live_ok b hbo).below_bumper
          have h8 := blockSize_pos (classIdx b.size)
          omega
    · rw [List.pairwise_cons]
      refine ⟨?_, inv.live_disj⟩
      intro c hc
      exact Or.inr (inv.live_ok c hc).below_bumper
    · intro b hb j hj m hm
      rcases List.mem_cons.mp hb with hbn | hbo
      · subst hbn
        exact Or.inr ((ChainOK_mem (inv.chain_ok j hj) m hm).2).below_bumper
      · exact inv.live_free_disj b hbo j hj m hm
    · intro j hj
      refine ChainOK_mono (inv.chain_ok j hj) rfl hlen (Nat.le_add_right _ _) ?_
      intro m hm
      exact hk4 m j ((ChainOK_mem (inv.chain_ok j hj) m hm).2).below_bumper
    · exact inv.chain_disj
    · exact inv.cross_disj
    · intro j hj
      exact inv.heads_match j hj
  | cons n rest =>
    have hchain := inv.chain_ok (classIdx s) hiN
    rw [hfree] at hchain
    obtain ⟨hn0, hnOK, hlink, hrest⟩ := hchain
    obtain ⟨hlinkeq, hlink32⟩ := hlink
    have hheads : st.heads.getD (trailingZeros32 (nextPowerOf2GT8 s) - 3) 0 = n := by
      rw [hci, hmatch, hfree]
      rfl
    have hnb : n + blockSize (classIdx s) + 8 ≤ st.bumper := hnOK.below_bumper
    have hbs8 := blockSize_pos (classIdx s)
    have hnw : n + 8 < U32 := by
      simp only [U32] at *
      omega
    have hpw : st.ptr_offset + n + 8 < U32 := by
      simp only [U32] at *
      omega
    have hpl : st.ptr_offset + n + 8 ≤ st.heap.length := hnOK.header_in
    obtain ⟨hpn, heq, hlen, hget⟩ := allocate_pop_eq st s n h1 h2 hheads hn0 hnw hpw hpl
    rw [hci, hlinkeq, leUint32_lePutUint32 hlink32, htoteq] at heq
    simp only [hci] at hget
    have hp' : add32 st.ptr_offset (n + 8) = p := by
      have h1eq := congrArg Prod.fst heq
      dsimp only at h1eq
      rw [h1eq] at h
      exact Except.ok.inj h
    have hstart : sub32 p st.ptr_offset - 8 = n := by
      rw [← hp', sub32_add32_cancel hnw]
      omega
    have h2eq := congrArg Prod.snd heq
    dsimp only at h2eq
    rw [hstart, h2eq]
    have hmemn : n ∈ free (classIdx s) := by
      rw [hfree]
      exact List.mem_cons_self n rest
    have hout : ∀ q, q < st.ptr_offset + n ∨ st.ptr_offset + n + 8 ≤ q →
        hpn.getD q 0 = st.heap.getD q 0 := by
      intro q hq
      rw [hget q, if_neg (by omega), if_neg (by omega)]
    have hsubm : ∀ j m, m ∈ (if j = classIdx s then rest else free j) → m ∈ free j := by
      intro j m hm
      by_cases hji : j = classIdx s
      · subst hji
        rw [if_pos rfl] at hm
        rw [hfree]
        exact List.mem_cons_of_mem n hm
      · rw [if_neg hji] at hm
        exact hm
    have hpc := inv.chain_disj (classIdx s) hiN
    rw [hfree] at hpc
    have hpcons := List.pairwise_cons.mp hpc
    have hpairn : ∀ m ∈ rest, extDisj n (classIdx s) m (classIdx s) := hpcons.1
    have hptail : rest.Pairwise (fun a b => extDisj a (classIdx s) b (classIdx s)) := hpcons.2
    have hnodedisj : ∀ j, j < N → ∀ m,
        m ∈ (if j = classIdx s then rest else free j) → extDisj m j n (classIdx s) := by
      intro j hj m hm
      by_cases hji : j = classIdx s
      · subst hji
        rw [if_pos rfl] at hm
        exact extDisj_symm (hpairn m hm)
      · rw [if_neg hji] at hm
        exact inv.cross_disj j (classIdx s) hj hiN hji m hm n hmemn
    have hk4 : ∀ m j, extDisj m j n (classIdx s) →
        heapBytes4 hpn (st.ptr_offset + m) = heapBytes4 st.heap (st.ptr_offset + m) := by
      intro m j hd
      apply heapBytes4_congr
      intro k hk
      apply hout
      have h8 := blockSize_pos j
      rcases hd with hlt | hgt
      · left
        omega
      · right
        omega
    refine ⟨fun j => if j = classIdx s then rest else free j,
      ?_, ?_, ?_, ?_, ?_, ?_, ?_, ?_, ?_, ?_, ?_, ?_, ?_, ?_, ?_⟩
    · show st.ptr_offset + hpn.length + 2 ^ 26 ≤ U32
      rw [hlen]
      exact hstat
    · exact hsmax
    · show (st.heads.set (classIdx s) (headOf rest)).length = N
      rw [List.length_set]
      exact inv.heads_len
    · show st.ptr_offset + st.bumper ≤ hpn.length + 2 ^ 25
      rw [hlen]
      exact hbb
    · show st.total_size + nextPowerOf2GT8 s + 8 = _
      simp only [List.map_cons, List.sum_cons]
      rw [← inv.total_eq]
      show _ = blockSize (classIdx s) + 8 + st.total_size
      rw [hbs]
      omega
    · exact htots
    · intro b hb
      rcases List.mem_cons.mp hb with hbn | hbo
      · subst hbn
        exact hsM
      · exact inv.size_max b hbo
    · intro b hb
      rcases List.mem_cons.mp hb with hbn | hbo
      · subst hbn
        refine ⟨hiN, hnb, ?_⟩
        show st.ptr_offset + n + 8 ≤ hpn.length
        rw [hlen]
        exact hpl
      · exact BlockOK_mono (inv.live_ok b hbo) rfl hlen (le_refl _)
    · intro b hb
      rcases List.mem_cons.mp hb with hbn | hbo
      · subst hbn
        show hpn.getD (st.ptr_offset + n) 0 = classIdx s
        rw [hget, if_pos rfl]
      · show hpn.getD (st.ptr_offset + b.start) 0 = classIdx b.size
        rw [hout _ ?_]
        · exact inv.live_hdr b hbo
        · have hd := inv.live_free_disj b hbo (classIdx s) hiN n hmemn
          have h8 := blockSize_pos (classIdx b.size)
          rcases hd with hlt | hgt
          · left
            omega
          · right
            omega
    · rw [List.pairwise_cons]
      refine ⟨?_, inv.live_disj⟩
      intro c hc
      exact extDisj_symm (inv.live_free_disj c hc (classIdx s) hiN n hmemn)
    · intro b hb j hj m hm
      rcases List.mem_cons.mp hb with hbn | hbo
      · subst hbn
        exact extDisj_symm (hnodedisj j hj m hm)
      · exact inv.live_free_disj b hbo j hj m (hsubm j m hm)
    · intro j hj
      by_cases hji : j = classIdx s
      · subst hji
        rw [if_pos rfl]
        refine ChainOK_mono hrest rfl hlen (le_refl _) ?_
        intro m hm
        exact hk4 m (classIdx s) (extDisj_symm (hpairn m hm))
      · rw [if_neg hji]
        refine ChainOK_mono (inv.chain_ok j hj) rfl hlen (le_refl _) ?_
        intro m hm
        exact hk4 m j (inv.cross_disj j (classIdx s) hj hiN hji m hm n hmemn)
    · intro j hj
      by_cases hji : j = classIdx s
      · subst hji
        rw [if_pos rfl]
        exact hptail
      · rw [if_neg hji]
        exact inv.chain_disj j hj
    · intro i j hi hj hij a ha c hc
      exact inv.cross_disj i j hi hj hij a (hsubm i a ha) c (hsubm j c hc)
    · intro j hj
      show (st.heads.set (classIdx s) (headOf rest)).getD j 0 = _
      rw [getD_set_eq_ite]
      by_cases hji : classIdx s = j
      · rw [if_pos ⟨hji, by rw [inv.heads_len]; omega⟩]
        subst hji
        rw [if_pos rfl]
      · rw [if_neg (by intro hc; exact hji hc.1), if_neg (by omega)]
        exact inv.heads_match j hj

/-- Every reachable state satisfies the invariant for some ghost free
chains. -/
theorem reached_inv {st : FreeingBumpHeapAllocator} {live : List LiveBlock}
    (hr : Reached st live) : ∃ free, Inv st live free := by
  induction hr with
  | init mem po hpo hlen => exact ⟨fun _ => [], inv_init mem po hpo hlen⟩
  | step_alloc hr h ih =>
    obtain ⟨free, inv⟩ := ih
    exact inv_alloc inv h
  | step_dealloc hr hb h ih =>
    obtain ⟨free, inv⟩ := ih
    exact inv_dealloc inv hb h

theorem sum_map_congr {α : Type} {l : List α} {f g : α → Nat}
    (h : ∀ b ∈ l, f b = g b) : (l.map f).sum = (l.map g).sum := by
  induction l with
  | nil => rfl
  | cons a t ih =>
    simp only [List.map_cons, List.sum_cons]
    rw [h a (List.mem_cons_self a t), ih (fun b hb => h b (List.mem_cons_of_mem a hb))]

/-- Under the invariant, deallocating a live block succeeds, sets the
head of its class to the block's start offset, and decrements the byte
counter by its class size plus the 8 header bytes. -/
theorem dealloc_effects {st : FreeingBumpHeapAllocator} {live : List LiveBlock}
    {free : Nat → List Nat} {b : LiveBlock}
    (inv : Inv st live free) (hb : b ∈ live) :
    (deallocate st (add32 st.ptr_offset (b.start + 8))).1 = .ok () ∧
    (deallocate st (add32 st.ptr_offset (b.start + 8))).2.heads.getD
      (classIdx b.size) 0 = b.start ∧
    (deallocate st (add32 st.ptr_offset (b.start + 8))).2.total_size =
      st.total_size - (blockSize (classIdx b.size) + 8) := by
  have hOK := inv.live_ok b hb
  have hdr := inv.live_hdr b hb
  have hiN : classIdx b.size < N := hOK.idx_lt
  have hbelow := hOK.below_bumper
  have hhdrin := hOK.header_in
  have hstat := inv.static_len
  have hbb := inv.bump_bound
  have hbs8 := blockSize_pos (classIdx b.size)
  have hwrap : b.start + 8 < U32 := by
    simp only [U32] at *
    omega
  have hsubP : sub32 (add32 st.ptr_offset (b.start + 8)) st.ptr_offset = b.start + 8 :=
    sub32_add32_cancel hwrap
  have he1 : sub32 (add32 st.ptr_offset (b.start + 8)) st.ptr_offset - 8 = b.start := by
    rw [hsubP]
    omega
  have he2 : add32 st.ptr_offset
      (sub32 (add32 st.ptr_offset (b.start + 8)) st.ptr_offset - 8) =
      st.ptr_offset + b.start := by
    rw [he1]
    exact add32_eq_of_lt (by simp only [U32] at *; omega)
  have hbyte : st.heap.getD (add32 st.ptr_offset
      (sub32 (add32 st.ptr_offset (b.start + 8)) st.ptr_offset - 8)) 0 =
      classIdx b.size := by
    rw [he2]
    exact hdr
  have hde := deallocate_ok_eq st (add32 st.ptr_offset (b.start + 8))
    (by rw [hsubP]; omega)
    (by rw [he2]; omega)
    (by rw [hbyte]; exact hiN)
    (by rw [he2]; omega)
  rw [hbyte, he2, he1] at hde
  rw [get_item_size_eq hiN] at hde
  have hcontrib : blockSize (classIdx b.size) + 8 ≤ st.total_size := by
    rw [inv.total_eq, sum_contribution (fun c => blockSize (classIdx c.size) + 8) hb]
    omega
  have htot32 : st.total_size < U32 := by
    have h1 := inv.total_max
    have h2 := inv.static_max
    simp only [U32] at *
    omega
  have htotal' : sub32 st.total_size (8 * 2 ^ classIdx b.size + 8) =
      st.total_size - (blockSize (classIdx b.size) + 8) := by
    have hbsdef : blockSize (classIdx b.size) = 8 * 2 ^ classIdx b.size := rfl
    rw [← hbsdef]
    exact sub32_eq_of_le hcontrib htot32
  rw [htotal'] at hde
  refine ⟨?_, ?_, ?_⟩
  · rw [hde]
  · rw [hde]
    show (st.heads.set (classIdx b.size) b.start).getD (classIdx b.size) 0 = b.start
    rw [getD_set_eq_ite, if_pos ⟨rfl, by rw [inv.heads_len]; omega⟩]
  · rw [hde]

end Gossamer

set_option maxRecDepth 100000

namespace Gossamer

/-! ### Claim C5 — constructor alignment and usable size -/

/-- C5 counterexample: with a 100-byte heap and requested base offset 4,
the constructor aligns the offset to 8 but sets `usable_size` to
`100 - 4 = 96`, not `100 - 8 = 92` as the claim states. -/
theorem C5_counterexample :
    (newAllocator (List.replicate 100 0) 4).ptr_offset = 8 ∧
    (newAllocator (List.replicate 100 0) 4).max_heap_size = 96 ∧
    (newAllocator (List.replicate 100 0) 4).max_heap_size ≠
      (List.replicate 100 (0 : Nat)).length -
        (newAllocator (List.replicate 100 0) 4).ptr_offset := by
  refine ⟨by decide, by decide, by decide⟩

/-- C5 amended: the constructor rounds the base offset up to the next
multiple of 8 when it is not already aligned, but `usable_size` is
computed from the *requested* (pre-alignment) base offset:
`usable_size = heap_buffer.length() - requested_base_offset`. -/
theorem C5_amended (mem : List Nat) (po : Nat)
    (hpo : po ≤ mem.length) (hlen : mem.length + 8 ≤ U32) :
    (newAllocator mem po).ptr_offset = (if po % 8 = 0 then po else po + (8 - po % 8)) ∧
    (newAllocator mem po).max_heap_size = mem.length - po := by
  have hsub : sub32 mem.length po = mem.length - po :=
    sub32_eq_of_le hpo (by omega)
  constructor
  · show (if po % ALIGNMENT ≠ 0 then add32 po (ALIGNMENT - po % ALIGNMENT) else po) = _
    by_cases hp : po % 8 = 0
    · rw [if_neg (by simp [ALIGNMENT, hp]), if_pos hp]
    · rw [if_pos (by simp [ALIGNMENT, hp]), if_neg hp]
      show add32 po (8 - po % 8) = _
      rw [add32_eq_of_lt (by have := @Nat.mod_lt po 8 (by omega); omega)]
  · exact hsub

/-- C5 witness: the amended statement evaluated on the 100-byte heap with
requested offset 4. -/
theorem C5_witness :
    (newAllocator (List.replicate 100 0) 4).ptr_offset =
      (if 4 % 8 = 0 then 4 else 4 + (8 - 4 % 8)) ∧
    (newAllocator (List.replicate 100 0) 4).max_heap_size =
      (List.replicate 100 (0 : Nat)).length - 4 :=
  C5_amended (List.replicate 100 0) 4 (by decide) (by decide)

/-! ### Claim C3 — deallocate of pointers below `base_offset + 8` -/

/-- C3: the claim (and the spec) say every pointer below `base_offset + 8`
fails with `InvalidPointer` and mutates nothing.  The code computes
`ptr = pointer - ptr_offset` with wrapping `uint32` subtraction, so a
pointer *below* the base offset wraps around, passes the `ptr < 8` test,
and the call succeeds: with base offset 16 and heap length 32,
`deallocate(10)` returns no error, reads heap byte 2 as a header, pushes
the bogus block start `4294967282` onto free list 0, overwrites heap
bytes 2..5, and wraps `bytes_in_use` to `2^32 - 16`. -/
theorem C3_failing_input_eval :
    v0.ptr_offset = 16 ∧ 10 < v0.ptr_offset + 8 ∧
    (deallocate v0 10).1 = .ok () ∧
    (deallocate v0 10).2.heads.getD 0 0 = 4294967282 ∧
    (deallocate v0 10).2.total_size = 4294967280 := by
  refine ⟨by decide, by decide, by decide, by decide, by decide⟩

/-! ### Claim C4 — header byte validation at deallocation -/

/-- C4 counterexample: with a header byte equal to 22 = `N`, `deallocate`
does not fail with any explicit `CorruptedFreeList` / `InvalidSizeClass`
error (the code constructs no such error); it indexes the 22-entry
`heads` array out of bounds — a Go runtime panic, modelled as
`headsOutOfBounds`. -/
theorem C4_counterexample :
    w0.heap.getD 0 0 = 22 ∧
    (deallocate w0 8).1 = .error .headsOutOfBounds ∧
    (deallocate w0 8).2 = w0 := by
  refine ⟨by decide, by decide, by decide⟩

/-- C4 amended: the source performs no validation of the size-class byte
read from the block header.  A header byte `≥ N = 22` makes the
`heads[list_index]` access index out of bounds — a runtime panic
(modelled as `headsOutOfBounds`), not an explicit
`CorruptedFreeList`/`InvalidSizeClass` error; the panic occurs before any
free-list, heap, or counter mutation. -/
theorem C4_amended (fbha : FreeingBumpHeapAllocator) (p b : Nat)
    (h8 : ¬ sub32 p fbha.ptr_offset < 8)
    (hb : get_heap_byte fbha (sub32 p fbha.ptr_offset - 8) = .ok b)
    (hN : N ≤ b) :
    deallocate fbha p = (.error .headsOutOfBounds, fbha) := by
  rw [deallocate, if_neg h8, hb]
  dsimp only
  rw [if_neg (by omega)]

/-- C4 witness: the amended statement evaluated on the heap whose header
byte at usable offset 0 is 22. -/
theorem C4_witness : deallocate w0 8 = (.error .headsOutOfBounds, w0) :=
  C4_amended w0 8 22 (by decide) (by decide) (by decide)

/-! ### Claim C1 — no usable-size check on the bump path -/

/-- C1 counterexample: on a 32-byte heap, after `allocate(4)`,
`deallocate(8)` (which loses the offset-0 block but resets
`bytes_in_use` to 0), the call `allocate(9)` takes the bump path, passes
the `bytes_in_use`-based check (16+8+0 ≤ 32), and succeeds — advancing
the bump cursor to 40 > 32 = `usable_size` with no `OutOfMemory`, and
carving a block occupying bytes 16..39, beyond the 32-byte usable
region.  The claim's guarantee is false on both counts. -/
theorem C1_counterexample :
    u2.max_heap_size = 32 ∧ u2.total_size = 0 ∧ u2.bumper = 16 ∧
    (allocate u2 9).1 = .ok 24 ∧
    (allocate u2 9).2.bumper = 40 ∧
    40 > (allocate u2 9).2.max_heap_size := by
  refine ⟨by decide, by decide, by decide, by decide, by decide, by decide⟩

/-- C1 amended: the bump path performs no check against `usable_size` at
all.  Whenever the free list for the class is empty and the
`bytes_in_use`-based check of step 3 passes, the bump cursor is advanced
by `block_size + 8` unconditionally and the call succeeds (provided only
that the 8 header bytes land inside the heap buffer); no hypothesis
bounds `bumper + block_size + 8` by `usable_size`, so the cursor and the
carved block may exceed the usable region. -/
theorem C1_amended (fbha : FreeingBumpHeapAllocator) (s : Nat)
    (h1 : ¬ MAX_POSSIBLE_ALLOCATION < s)
    (h2 : ¬ (nextPowerOf2GT8 s + 8 + fbha.total_size) % U32 > fbha.max_heap_size)
    (hheads : fbha.heads.getD (trailingZeros32 (nextPowerOf2GT8 s) - 3) 0 = 0)
    (hbw : fbha.bumper + 8 < U32)
    (hpw : fbha.ptr_offset + fbha.bumper + 8 < U32)
    (hpl : fbha.ptr_offset + fbha.bumper + 8 ≤ fbha.heap.length) :
    (allocate fbha s).1 = .ok (add32 fbha.ptr_offset (fbha.bumper + 8)) ∧
    (allocate fbha s).2.bumper = add32 fbha.bumper (nextPowerOf2GT8 s + 8) := by
  obtain ⟨hp, heq, -, -⟩ := allocate_bump_eq fbha s h1 h2 hheads hbw hpw hpl
  rw [heq]
  exact ⟨rfl, rfl⟩

/-- C1 witness: the amended statement evaluated on the 32-byte heap where
the bump cursor ends up at 40 > 32. -/
theorem C1_witness :
    (allocate u2 9).1 = .ok (add32 u2.ptr_offset (u2.bumper + 8)) ∧
    (allocate u2 9).2.bumper = add32 u2.bumper (nextPowerOf2GT8 9 + 8) :=
  C1_amended u2 9 (by decide) (by decide) (by decide) (by decide) (by decide) (by decide)

/-! ### Claim C6 — failed calls leave the state untouched -/

/-- C6: whenever `allocate` returns one of the Go-constructed errors
`AllocationTooLarge` or `OutOfMemory`, or `deallocate` returns
`InvalidPointer`, the allocator state (bump cursor, free-list heads,
`bytes_in_use`) and every heap byte are exactly as before the call: the
returned state is the argument state. -/
theorem C6_atomic_errors (fbha : FreeingBumpHeapAllocator) :
    (∀ s e, (allocate fbha s).1 = .error e →
      e = .allocationTooLarge ∨ e = .outOfMemory → (allocate fbha s).2 = fbha) ∧
    (∀ p e, (deallocate fbha p).1 = .error e →
      e = .invalidPointer → (deallocate fbha p).2 = fbha) := by
  constructor
  · intro s e h he
    rcases allocate_fst_error_cases fbha s e h with ⟨-, -, hst⟩ | ⟨-, -, hst⟩ | hE
    · exact hst
    · exact hst
    · rcases he with he | he <;> (rw [he] at hE; cases hE)
  · intro p e h he
    rcases deallocate_fst_error_cases fbha p e h with ⟨-, -, hst⟩ | ⟨hE, -⟩ | hE
    · exact hst
    · rw [he] at hE; cases hE
    · rw [he] at hE; cases hE

/-- C6 witness: a too-large allocation and an invalid deallocation on the
1024-byte scenario heap both return the state unchanged. -/
theorem C6_witness :
    (allocate st0 16777217).2 = st0 ∧ (deallocate st0 0).2 = st0 :=
  ⟨(C6_atomic_errors st0).1 16777217 .allocationTooLarge (by decide) (Or.inl rfl),
   (C6_atomic_errors st0).2 0 .invalidPointer (by decide) rfl⟩

/-! ### Claim C8 — size check, class rounding, and class index -/

/-- C8: `allocate` fails with `AllocationTooLarge` exactly when the
requested size exceeds 16777216 (so a 16 MiB request passes the size
check); the block size is 8 for requests below 8 and the smallest power
of two ≥ the request otherwise; and the free-list index
`count_trailing_zero_bits(block_size) - 3` satisfies
`block_size = 8 * 2^index`. -/
theorem C8_size_class :
    (∀ (fbha : FreeingBumpHeapAllocator) (s : Nat),
      (allocate fbha s).1 = .error .allocationTooLarge ↔ MAX_POSSIBLE_ALLOCATION < s) ∧
    (∀ s, s < 8 → nextPowerOf2GT8 s = 8) ∧
    (∀ s, 8 ≤ s → s ≤ MAX_POSSIBLE_ALLOCATION →
      ∃ k, nextPowerOf2GT8 s = 2 ^ k ∧ s ≤ 2 ^ k ∧ ∀ j, s ≤ 2 ^ j → 2 ^ k ≤ 2 ^ j) ∧
    (∀ s, s ≤ MAX_POSSIBLE_ALLOCATION →
      8 * 2 ^ (trailingZeros32 (nextPowerOf2GT8 s) - 3) = nextPowerOf2GT8 s) := by
  refine ⟨?_, ?_, ?_, ?_⟩
  · intro fbha s
    constructor
    · intro h
      rcases allocate_fst_error_cases fbha s _ h with ⟨-, hs, -⟩ | ⟨hE, -, -⟩ | hE
      · exact hs
      · cases hE
      · cases hE
    · intro hs
      rw [allocate_tooLarge fbha s hs]
  · intro s hs
    exact nextPowerOf2GT8_small hs
  · intro s h8 hmax
    have h32 : s < 2 ^ 32 := by
      have : (16777216 : Nat) < 2 ^ 32 := by norm_num
      simp only [MAX_POSSIBLE_ALLOCATION] at hmax
      omega
    refine ⟨(s - 1).log2 + 1, nextPowerOf2GT8_eq_pow h8 h32, ?_, ?_⟩
    · have := nextPowerOf2GT8_ge h8 h32
      rwa [nextPowerOf2GT8_eq_pow h8 h32] at this
    · intro j hj
      have hlt : 2 ^ ((s - 1).log2 + 1) < 2 * s := by
        have := nextPowerOf2GT8_lt_two_mul h8 h32
        rwa [nextPowerOf2GT8_eq_pow h8 h32] at this
      have hj1 : 2 ^ ((s - 1).log2 + 1) < 2 ^ (j + 1) := by
        calc 2 ^ ((s - 1).log2 + 1) < 2 * s := hlt
        _ ≤ 2 * 2 ^ j := by omega
        _ = 2 ^ (j + 1) := by rw [Nat.pow_succ]; ring
      have := (Nat.pow_lt_pow_iff_right (by omega : 1 < 2)).mp hj1
      exact Nat.pow_le_pow_right (by omega) (by omega)
  · intro s hmax
    exact item_size_recover hmax

/-- C8 witness: the size-check boundary and the class arithmetic
evaluated at concrete sizes. -/
theorem C8_witness :
    (allocate st0 16777217).1 = .error .allocationTooLarge ∧
    nextPowerOf2GT8 5 = 8 ∧
    (∃ k, nextPowerOf2GT8 100 = 2 ^ k ∧ 100 ≤ 2 ^ k ∧ ∀ j, 100 ≤ 2 ^ j → 2 ^ k ≤ 2 ^ j) ∧
    8 * 2 ^ (trailingZeros32 (nextPowerOf2GT8 100) - 3) = nextPowerOf2GT8 100 :=
  ⟨(C8_size_class.1 st0 16777217).mpr (by decide),
   C8_size_class.2.1 5 (by decide),
   C8_size_class.2.2.1 100 (by decide) (by decide),
   C8_size_class.2.2.2 100 (by decide)⟩

/-! ### Claim C2 — free-list reuse takes priority over bumping -/

/-- C2 counterexample: in the spec's own scenario (1024 usable bytes,
base offset 0; `allocate(4)` → 8, `allocate(4)` → 24, `deallocate(8)`),
the next `allocate(4)` returns pointer 40 — not 8 — and advances the bump
cursor from 32 to 48: deallocating the block at relative offset 0 set
`free_list_heads[0]` to 0, which `allocate` reads as "list empty".
(`bytes_in_use = 32` does hold.) -/
theorem C2_counterexample :
    (allocate st3 4).1 = .ok 40 ∧ (allocate st3 4).1 ≠ .ok 8 ∧
    st3.bumper = 32 ∧ (allocate st3 4).2.bumper = 48 ∧
    (allocate st3 4).2.total_size = 32 := by
  refine ⟨by decide, by decide, by decide, by decide, by decide⟩

/-- C2 amended: free-list reuse takes priority over bumping for every
deallocated block whose relative offset (`block_start = p - base_offset
- 8`) is *nonzero*: after `deallocate(p)` succeeds, the next `allocate`
whose request rounds to the block's recorded size class returns `p`
again and leaves the bump cursor unchanged.  (The block at relative
offset 0 is excluded: pushing it encodes the empty list, see C10.) -/
theorem C2_amended (fbha : FreeingBumpHeapAllocator) (p s : Nat)
    (hd : (deallocate fbha p).1 = .ok ())
    (hstart : sub32 p fbha.ptr_offset ≠ 8)
    (hp : p < U32)
    (hhl : fbha.heads.length = N)
    (hclass : trailingZeros32 (nextPowerOf2GT8 s) - 3 =
      fbha.heap.getD (add32 fbha.ptr_offset (sub32 p fbha.ptr_offset - 8)) 0)
    (hs : ¬ MAX_POSSIBLE_ALLOCATION < s)
    (hck : ¬ (nextPowerOf2GT8 s + 8 + (deallocate fbha p).2.total_size) % U32 >
      fbha.max_heap_size)
    (hbw : sub32 p fbha.ptr_offset < U32)
    (hpw : fbha.ptr_offset + sub32 p fbha.ptr_offset < U32)
    (hpl : fbha.ptr_offset + sub32 p fbha.ptr_offset ≤ fbha.heap.length) :
    (allocate (deallocate fbha p).2 s).1 = .ok p ∧
    (allocate (deallocate fbha p).2 s).2.bumper = fbha.bumper := by
  obtain ⟨h8, hrd, hli, hwr⟩ := deallocate_ok_conditions hd
  have hde := deallocate_ok_eq fbha p h8 hrd hli hwr
  have hptr8 : 8 ≤ sub32 p fbha.ptr_offset := by omega
  have haddp : add32 fbha.ptr_offset (sub32 p fbha.ptr_offset - 8) =
      fbha.ptr_offset + (sub32 p fbha.ptr_offset - 8) := add32_eq_of_lt (by omega)
  have hpo2 : (deallocate fbha p).2.ptr_offset = fbha.ptr_offset := by rw [hde]
  have hmax2 : (deallocate fbha p).2.max_heap_size = fbha.max_heap_size := by rw [hde]
  have hbmp2 : (deallocate fbha p).2.bumper = fbha.bumper := deallocate_bumper fbha p
  obtain ⟨hp2, heq, -, -⟩ := allocate_pop_eq (deallocate fbha p).2 s
    (sub32 p fbha.ptr_offset - 8) hs
    (by rw [hmax2]; exact hck)
    (by
      rw [hde]
      dsimp only
      rw [hclass, getD_set_eq_ite]
      rw [if_pos (And.intro rfl (by rw [hhl]; exact hli))])
    (by omega)
    (by omega)
    (by rw [hpo2]; omega)
    (by
      rw [hpo2, hde]
      dsimp only
      rw [length_writeBytes]
      omega)
  rw [heq]
  constructor
  · dsimp only
    rw [hpo2]
    have hrw : sub32 p fbha.ptr_offset - 8 + 8 = sub32 p fbha.ptr_offset := by omega
    rw [hrw, add32_sub32_cancel hp]
  · dsimp only
    exact hbmp2

/-- C2 witness: the amended statement evaluated on the spec scenario with
the *second* block (relative offset 16) deallocated: the next
`allocate(4)` returns 24 again and the bump cursor stays at 32. -/
theorem C2_witness :
    (allocate (deallocate st2 24).2 4).1 = .ok 24 ∧
    (allocate (deallocate st2 24).2 4).2.bumper = st2.bumper :=
  C2_amended st2 24 4 (by decide) (by decide) (by decide) (by decide) (by decide)
    (by decide) (by decide) (by decide) (by decide) (by decide)

/-! ### Claim C9 — the `median` helper of the slot-timing module -/

/-- C9 counterexample: the claim says every even-length list yields the
average of the sorted elements at indices `m/2 - 1` and `m/2 + 1`; but
for `m = 2` the index `m/2 + 1 = 2` is out of range, so the Go code
panics (modelled as `indexOutOfRange`) instead of returning a value. -/
theorem C9_counterexample : median [1, 2] = .error .indexOutOfRange := by decide

/-- C9 amended: the empty list yields an error; an odd-length list yields
the sorted list's element at index `m/2`; an even-length list of length
at least 4 yields the average of the sorted elements at indices `m/2 - 1`
and `m/2 + 1` (computed with `uint64` wraparound on the sum), confirming
the spec's off-by-one observation; a list of length exactly 2 makes the
index `m/2 + 1` out of range — a runtime panic, not a value. -/
theorem C9_amended (l : List Nat) :
    (l.length = 0 → median l = .error .emptyList) ∧
    (l.length % 2 = 1 → ∃ s, List.Perm s l ∧ s.Sorted (· ≤ ·) ∧
      median l = .ok (s.getD (l.length / 2) 0)) ∧
    (l.length % 2 = 0 → 4 ≤ l.length → ∃ s, List.Perm s l ∧ s.Sorted (· ≤ ·) ∧
      median l = .ok ((s.getD (l.length / 2 - 1) 0 + s.getD (l.length / 2 + 1) 0) % U64 / 2)) ∧
    (l.length = 2 → median l = .error .indexOutOfRange) := by
  have hperm : List.Perm (l.insertionSort (· ≤ ·)) l := List.perm_insertionSort _ l
  have hsort : (l.insertionSort (· ≤ ·)).Sorted (· ≤ ·) := List.sorted_insertionSort _ l
  have hlen : (l.insertionSort (· ≤ ·)).length = l.length := hperm.length_eq
  refine ⟨?_, ?_, ?_, ?_⟩
  · intro h0
    rw [median, if_pos h0]
  · intro hodd
    refine ⟨l.insertionSort (· ≤ ·), hperm, hsort, ?_⟩
    rw [median, if_neg (by omega), if_neg (by omega)]
  · intro heven h4
    refine ⟨l.insertionSort (· ≤ ·), hperm, hsort, ?_⟩
    rw [median, if_neg (by omega), if_pos heven, if_pos (by rw [hlen]; omega)]
  · intro h2
    rw [median, if_neg (by omega), if_pos (by omega), if_neg (by rw [hlen]; omega)]

/-- C9 witness: the amended statement evaluated on concrete lists of
length 0, 3, 4, and 2. -/
theorem C9_witness :
    median [] = .error .emptyList ∧
    (∃ s, List.Perm s [5, 1, 3] ∧ s.Sorted (· ≤ ·) ∧
      median [5, 1, 3] = .ok (s.getD 1 0)) ∧
    (∃ s, List.Perm s [4, 1, 2, 3] ∧ s.Sorted (· ≤ ·) ∧
      median [4, 1, 2, 3] = .ok ((s.getD 1 0 + s.getD 3 0) % U64 / 2)) ∧
    median [1, 2] = .error .indexOutOfRange :=
  ⟨(C9_amended []).1 rfl,
   (C9_amended [5, 1, 3]).2.1 (by decide),
   (C9_amended [4, 1, 2, 3]).2.2.1 (by decide) (by decide),
   (C9_amended [1, 2]).2.2.2 (by decide)⟩

/-! ### C7: bytes_in_use bookkeeping over well-formed operation sequences -/

/-- C7: over every sequence of successful operations (each `deallocate`
targeting a live allocation), `total_size` equals the sum over the live
allocations of `nextPowerOf2GT8(size) + 8`; it is 0 when no allocation
is live; a successful `allocate(s)` increments it by exactly
`nextPowerOf2GT8(s) + 8`; and deallocating a live block decrements it by
`8 * 2^index + 8` for that block's size-class index. -/
theorem C7_bytes_in_use (st : FreeingBumpHeapAllocator) (live : List LiveBlock)
    (hr : Reached st live) :
    st.total_size = (live.map (fun b => nextPowerOf2GT8 b.size + 8)).sum ∧
    (live = [] → st.total_size = 0) ∧
    (∀ s p, (allocate st s).1 = .ok p →
      (allocate st s).2.total_size = st.total_size + (nextPowerOf2GT8 s + 8)) ∧
    (∀ b ∈ live,
      (deallocate st (add32 st.ptr_offset (b.start + 8))).2.total_size =
        st.total_size - (8 * 2 ^ classIdx b.size + 8)) := by
  obtain ⟨free, inv⟩ := reached_inv hr
  have hsum : st.total_size = (live.map (fun b => nextPowerOf2GT8 b.size + 8)).sum := by
    rw [inv.total_eq]
    exact sum_map_congr (fun b hb => by rw [blockSize_classIdx (inv.size_max b hb)])
  refine ⟨hsum, ?_, ?_, ?_⟩
  · intro hnil
    rw [hsum, hnil]
    rfl
  · intro s p h
    obtain ⟨free', inv'⟩ := reached_inv (Reached.step_alloc hr h)
    obtain ⟨h1, h2⟩ := allocate_ok_checks h
    have hsM : s ≤ MAX_POSSIBLE_ALLOCATION := by omega
    have ht := inv'.total_eq
    simp only [List.map_cons, List.sum_cons] at ht
    rw [ht, ← inv.total_eq, blockSize_classIdx hsM]
    omega
  · intro b hb
    exact (dealloc_effects inv hb).2.2

/-- C7 witness: the concrete trace allocate(4), allocate(4),
deallocate(8) on a 1024-byte heap with base offset 0 leaves one live
block of size 4 at offset 16, and `total_size` equals its class size
plus the 8 header bytes. -/
theorem C7_witness :
    st3.total_size = (([{ start := 16, size := 4 }] : List LiveBlock).map
      (fun b => nextPowerOf2GT8 b.size + 8)).sum := by
  have r0 : Reached st0 [] := Reached.init (List.replicate 1024 0) 0 (by decide) (by decide)
  have h1 : (allocate st0 4).1 = .ok 8 := by decide
  have r1 : Reached st1 [{ start := sub32 8 st0.ptr_offset - 8, size := 4 }] :=
    Reached.step_alloc r0 h1
  have e1 : ({ start := sub32 8 st0.ptr_offset - 8, size := 4 } : LiveBlock) =
      { start := 0, size := 4 } := by decide
  rw [e1] at r1
  have h2 : (allocate st1 4).1 = .ok 24 := by decide
  have r2 : Reached st2 [{ start := sub32 24 st1.ptr_offset - 8, size := 4 },
      { start := 0, size := 4 }] := Reached.step_alloc r1 h2
  have e2 : ({ start := sub32 24 st1.ptr_offset - 8, size := 4 } : LiveBlock) =
      { start := 16, size := 4 } := by decide
  rw [e2] at r2
  have hmem : ({ start := 0, size := 4 } : LiveBlock) ∈
      ([{ start := 16, size := 4 }, { start := 0, size := 4 }] : List LiveBlock) := by decide
  have h3 : (deallocate st2 (add32 st2.ptr_offset
      (({ start := 0, size := 4 } : LiveBlock).start + 8))).1 = .ok () := by decide
  have r3 : Reached (deallocate st2 (add32 st2.ptr_offset
      (({ start := 0, size := 4 } : LiveBlock).start + 8))).2
      (([{ start := 16, size := 4 }, { start := 0, size := 4 }] : List LiveBlock).erase
        { start := 0, size := 4 }) := Reached.step_dealloc r2 hmem h3
  have e3 : (([{ start := 16, size := 4 }, { start := 0, size := 4 }] : List LiveBlock).erase
      { start := 0, size := 4 }) = [{ start := 16, size := 4 }] := by decide
  have e4 : add32 st2.ptr_offset (({ start := 0, size := 4 } : LiveBlock).start + 8) = 8 := by
    decide
  rw [e3, e4] at r3
  exact (C7_bytes_in_use _ _ r3).1

/-! ### C10: the block at relative offset 0 is lost after deallocation -/

/-- C10: deallocating the live block whose region starts at relative
offset 0 writes 0 into its class's free-list head, which is the same
encoding as the empty list; `deallocate` never changes the bump cursor
and a successful `allocate` never decreases it; an `allocate` that sees
head 0 bumps a fresh region at the cursor; and once the cursor is
nonzero no successful `allocate` ever again returns the region at
offset 0.  Together: after the first-carved block is freed, its storage
is unreachable. -/
theorem C10_lost_block (st : FreeingBumpHeapAllocator) (live : List LiveBlock)
    (hr : Reached st live) :
    (∀ b ∈ live, b.start = 0 →
      (deallocate st (add32 st.ptr_offset (b.start + 8))).2.heads.getD
        (classIdx b.size) 0 = 0) ∧
    (∀ p, (deallocate st p).2.bumper = st.bumper) ∧
    (∀ s p, (allocate st s).1 = .ok p → st.bumper ≤ (allocate st s).2.bumper) ∧
    (∀ s p, (allocate st s).1 = .ok p →
      st.heads.getD (classIdx s) 0 = 0 → p = add32 st.ptr_offset (st.bumper + 8)) ∧
    (∀ s p, (allocate st s).1 = .ok p → st.bumper ≠ 0 →
      sub32 p st.ptr_offset - 8 ≠ 0) := by
  obtain ⟨free, inv⟩ := reached_inv hr
  have hstat := inv.static_len
  have hbb := inv.bump_bound
  have hcases : ∀ s p, (allocate st s).1 = .ok p →
      (p = add32 st.ptr_offset (st.bumper + 8) ∧
        st.heads.getD (classIdx s) 0 = 0 ∧
        (allocate st s).2.bumper = st.bumper + (nextPowerOf2GT8 s + 8) ∧
        sub32 p st.ptr_offset - 8 = st.bumper) ∨
      (∃ n, n ≠ 0 ∧ st.heads.getD (classIdx s) 0 = n ∧
        (allocate st s).2.bumper = st.bumper ∧
        sub32 p st.ptr_offset - 8 = n) := by
    intro s p h
    obtain ⟨h1, h2⟩ := allocate_ok_checks h
    have hsM : s ≤ MAX_POSSIBLE_ALLOCATION := by omega
    have hiN : classIdx s < N := classIdx_lt hsM
    have hci : trailingZeros32 (nextPowerOf2GT8 s) - 3 = classIdx s := rfl
    have hmatch := inv.heads_match (classIdx s) hiN
    cases hfree : free (classIdx s) with
    | nil =>
      left
      have hheads : st.heads.getD (trailingZeros32 (nextPowerOf2GT8 s) - 3) 0 = 0 := by
        rw [hci, hmatch, hfree]
        rfl
      have hbw : st.bumper + 8 < U32 := by
        simp only [U32] at *
        omega
      have hpw : st.ptr_offset + st.bumper + 8 < U32 := by
        simp only [U32] at *
        omega
      by_cases hpl : st.ptr_offset + st.bumper + 8 ≤ st.heap.length
      case neg =>
        rw [allocate_bump_oob_fst st s h1 h2 hheads hbw hpw hpl] at h
        cases h
      obtain ⟨hpn, heq, hlen, hget⟩ := allocate_bump_eq st s h1 h2 hheads hbw hpw hpl
      have h1eq := congrArg Prod.fst heq
      have h2eq := congrArg Prod.snd heq
      dsimp only at h1eq h2eq
      rw [h1eq] at h
      have hp' := Except.ok.inj h
      have hbump : add32 st.bumper (nextPowerOf2GT8 s + 8) =
          st.bumper + (nextPowerOf2GT8 s + 8) := by
        apply add32_eq_of_lt
        have := nextPowerOf2GT8_le_max hsM
        simp only [U32, MAX_POSSIBLE_ALLOCATION] at *
        omega
      refine ⟨hp'.symm, by rw [hci] at hheads; exact hheads, ?_, ?_⟩
      · rw [h2eq]
        exact hbump
      · rw [← hp', sub32_add32_cancel hbw]
        omega
    | cons n rest =>
      right
      have hchain := inv.chain_ok (classIdx s) hiN
      rw [hfree] at hchain
      obtain ⟨hn0, hnOK, hlink, hrest⟩ := hchain
      have hheads : st.heads.getD (trailingZeros32 (nextPowerOf2GT8 s) - 3) 0 = n := by
        rw [hci, hmatch, hfree]
        rfl
      have hnb := hnOK.below_bumper
      have hbs8 := blockSize_pos (classIdx s)
      have hnw : n + 8 < U32 := by
        simp only [U32] at *
        omega
      have hpw : st.ptr_offset + n + 8 < U32 := by
        simp only [U32] at *
        omega
      obtain ⟨hpn, heq, hlen, hget⟩ := allocate_pop_eq st s n h1 h2 hheads hn0 hnw hpw
        hnOK.header_in
      have h1eq := congrArg Prod.fst heq
      have h2eq := congrArg Prod.snd heq
      dsimp only at h1eq h2eq
      rw [h1eq] at h
      have hp' := Except.ok.inj h
      refine ⟨n, hn0, by rw [hci] at hheads; exact hheads, ?_, ?_⟩
      · rw [h2eq]
      · rw [← hp', sub32_add32_cancel hnw]
        omega
  refine ⟨?_, ?_, ?_, ?_, ?_⟩
  · intro b hb hb0
    rw [(dealloc_effects inv hb).2.1]
    exact hb0
  · intro p
    exact deallocate_bumper st p
  · intro s p h
    rcases hcases s p h with ⟨-, -, hbump, -⟩ | ⟨n, -, -, hbump, -⟩
    · rw [hbump]
      omega
    · exact le_of_eq hbump.symm
  · intro s p h hh0
    rcases hcases s p h with ⟨hp, -, -, -⟩ | ⟨n, hn0, hhn, -, -⟩
    · exact hp
    · rw [hh0] at hhn
      exact absurd hhn.symm hn0
  · intro s p h hb0
    rcases hcases s p h with ⟨-, -, -, hstart⟩ | ⟨n, hn0, -, -, hstart⟩
    · rw [hstart]
      exact hb0
    · rw [hstart]
      exact hn0

/-- C10 witness: in the concrete trace allocate(4), allocate(4) on a
1024-byte heap with base offset 0, deallocating the live block at
relative offset 0 (pointer 8) leaves the class-0 free-list head equal
to 0 - the encoding of the empty list. -/
theorem C10_witness : st3.heads.getD (classIdx 4) 0 = 0 := by
  have r0 : Reached st0 [] := Reached.init (List.replicate 1024 0) 0 (by decide) (by decide)
  have h1 : (allocate st0 4).1 = .ok 8 := by decide
  have r1 : Reached st1 [{ start := sub32 8 st0.ptr_offset - 8, size := 4 }] :=
    Reached.step_alloc r0 h1
  have e1 : ({ start := sub32 8 st0.ptr_offset - 8, size := 4 } : LiveBlock) =
      { start := 0, size := 4 } := by decide
  rw [e1] at r1
  have h2 : (allocate st1 4).1 = .ok 24 := by decide
  have r2 : Reached st2 [{ start := sub32 24 st1.ptr_offset - 8, size := 4 },
      { start := 0, size := 4 }] := Reached.step_alloc r1 h2
  have e2 : ({ start := sub32 24 st1.ptr_offset - 8, size := 4 } : LiveBlock) =
      { start := 16, size := 4 } := by decide
  rw [e2] at r2
  have hmem : ({ start := 0, size := 4 } : LiveBlock) ∈
      ([{ start := 16, size := 4 }, { start := 0, size := 4 }] : List LiveBlock) := by decide
  have h := (C10_lost_block st2 _ r2).1 { start := 0, size := 4 } hmem rfl
  have e4 : add32 st2.ptr_offset (({ start := 0, size := 4 } : LiveBlock).start + 8) = 8 := by
    decide
  rw [e4] at h
  exact h

end Gossamer
